import Mathlib

set_option maxRecDepth 400000

/-!
Shallow embedding of the multi-debt payoff simulator in
app_debt_strategies.py: the Debt record, the strategy orderer
(order_debts), the monthly simulation loop (interest accrual, minimum
payments, single-target waterfall extra payment, payoff marking,
snapshot recording) and the simulate entry point with its validation
checks.  Money and rates are modelled as exact rationals; the Python
source computes with binary floats, whose rounding is immaterial to the
structural properties verified here.
-/

/-- One liability, as in the source dataclass Debt (name, balance,
apr_pct, min_pay). -/
structure Debt where
  name : String
  balance : ℚ
  apr_pct : ℚ
  min_pay : ℚ
deriving DecidableEq

instance : Inhabited Debt := ⟨⟨"", 0, 0, 0⟩⟩

/-- Source: monthly_rate(apr_pct) = apr_pct / 100.0 / 12.0. -/
def monthly_rate (apr_pct : ℚ) : ℚ := apr_pct / 100 / 12

/-- The two strategy tags.  The source represents a strategy as one of
the literal strings "Snowball (Smallest Balance First)" and
"Avalanche (Highest APR First)" and branches on startswith("Snowball");
this inductive models that two-valued choice. -/
inductive Strategy where
  | snowball
  | avalanche
deriving DecidableEq

/-- The epsilon literal 0.005 used by the source for the loop condition,
the waterfall eligibility test and the payoff-marking test. -/
def eps : ℚ := 5 / 1000

/-- Target order for the Snowball branch of order_debts.  Python's
sorted(range(n), key=balance) is a stable sort, and a stable sort of the
distinct indices 0..n-1 by a key coincides with sorting by the
lexicographic order on (key, index); snowballRel is that order. -/
def snowballRel (debts : List Debt) (i j : Nat) : Prop :=
  (debts.getD i default).balance < (debts.getD j default).balance ∨
    ((debts.getD i default).balance = (debts.getD j default).balance ∧ i ≤ j)

/-- Target order for the Avalanche branch of order_debts: Python's
sorted(range(n), key=apr, reverse=True) is stable (ties keep original
input order), so it coincides with sorting by descending apr with index
as tie-break. -/
def avalancheRel (debts : List Debt) (i j : Nat) : Prop :=
  (debts.getD j default).apr_pct < (debts.getD i default).apr_pct ∨
    ((debts.getD i default).apr_pct = (debts.getD j default).apr_pct ∧ i ≤ j)

/-- The priority order relation chosen by the strategy tag. -/
def orderRel (debts : List Debt) : Strategy → Nat → Nat → Prop
  | .snowball => snowballRel debts
  | .avalanche => avalancheRel debts

instance (debts : List Debt) : DecidableRel (snowballRel debts) := fun _ _ => by
  unfold snowballRel; infer_instance

instance (debts : List Debt) : DecidableRel (avalancheRel debts) := fun _ _ => by
  unfold avalancheRel; infer_instance

instance (debts : List Debt) (s : Strategy) : DecidableRel (orderRel debts s) := fun i j => by
  cases s <;> simp only [orderRel] <;> infer_instance

/-- Source: order_debts(debts, strategy) — indices in the order to
target extra payments: ascending balance for Snowball, descending APR
for Avalanche, Python stable sort (modelled as sorting the index range
by the lexicographic (key, index) order, which a stable sort of distinct
indices equals). -/
def order_debts (debts : List Debt) (strategy : Strategy) : List Nat :=
  List.insertionSort (orderRel debts strategy) (List.range debts.length)

/-- Step 1 of the month loop, per debt: debts with balance ≤ 0 accrue
nothing; otherwise interest = balance * monthly_rate(apr) is added to
the balance.  Returns (updated debt, interest). -/
def accrueOne (d : Debt) : Debt × ℚ :=
  if d.balance ≤ 0 then (d, 0)
  else
    let interest := d.balance * monthly_rate d.apr_pct
    ({ d with balance := d.balance + interest }, interest)

/-- Step 1 over the whole list: updated debts and the interests list. -/
def accrueAll (debts : List Debt) : List Debt × List ℚ :=
  ((debts.map accrueOne).map Prod.fst, (debts.map accrueOne).map Prod.snd)

/-- Step 2 of the month loop, per debt: debts with balance ≤ 0 pay
nothing; otherwise pay = min(min_pay, balance) is deducted from the
balance.  Returns (updated debt, payment). -/
def payMinOne (d : Debt) : Debt × ℚ :=
  if d.balance ≤ 0 then (d, 0)
  else
    let pay := min d.min_pay d.balance
    ({ d with balance := d.balance - pay }, pay)

/-- Step 2 over the whole list: updated debts and the minimum-payment
amounts.  The source deducts each payment from remaining_budget, so
after this pass remaining_budget = budget - (payMins debts).2.sum. -/
def payMins (debts : List Debt) : List Debt × List ℚ :=
  ((debts.map payMinOne).map Prod.fst, (debts.map payMinOne).map Prod.snd)

/-- Step 3: if remaining budget is positive, walk the fixed order, find
the first debt with balance > eps, pay it extra = min(remaining, its
balance), and stop (the source loop breaks after that first debt).
Returns (debts, payments, remaining budget, the target index with its
extra amount if any). -/
def waterfall (debts : List Debt) (payments : List ℚ) (rb : ℚ) (order : List Nat) :
    List Debt × List ℚ × ℚ × Option (Nat × ℚ) :=
  if 0 < rb then
    match order.find? (fun idx => decide (eps < (debts.getD idx default).balance)) with
    | some idx =>
        let bal := (debts.getD idx default).balance
        let extra := min rb bal
        (debts.set idx { debts.getD idx default with balance := bal - extra },
          payments.set idx (payments.getD idx 0 + extra), rb - extra, some (idx, extra))
    | none => (debts, payments, rb, none)
  else (debts, payments, rb, none)

/-- Step 4, per debt: if balance ≤ eps and the payoff month is still
unset, record the current month and snap the balance to exactly 0;
otherwise leave both unchanged. -/
def markOne (month : Nat) (d : Debt) (p : Option Nat) : Debt × Option Nat :=
  if d.balance ≤ eps ∧ p = none then ({ d with balance := 0 }, some month) else (d, p)

/-- Step 4 over the debts and the paid-off list (walked in parallel,
as the source indexes paid_off_month by the same i as debts). -/
def markPayoffs (month : Nat) : List Debt → List (Option Nat) → List Debt × List (Option Nat)
  | d :: ds, p :: ps =>
      let rest := markPayoffs month ds ps
      let one := markOne month d p
      (one.1 :: rest.1, one.2 :: rest.2)
  | ds, _ => (ds, [])

/-- round(x, 2) of the source, on exact rationals: round to a whole
number of cents.  (Python rounds halves to even on binary floats; the
difference only concerns exact half-cent values and no claim depends on
the rounding mode.) -/
def round2 (x : ℚ) : ℚ := ((⌊x * 100 + 1 / 2⌋ : ℤ) : ℚ) / 100

/-- One recorded row: month number, remaining budget after the month,
cumulative interest to date, and per debt (balance, paid this month),
in input order, all rounded to cents as the source does. -/
structure Snapshot where
  month : Nat
  remaining_budget : ℚ
  total_interest_to_date : ℚ
  per_debt : List (ℚ × ℚ)
deriving DecidableEq

/-- The mutable state of the simulate loop: current debts, month
counter, recorded rows, total interest accumulator and the per-index
paid-off months. -/
structure SimState where
  debts : List Debt
  month : Nat
  rows : List Snapshot
  total_interest : ℚ
  paid_off_month : List (Option Nat)
deriving DecidableEq

/-- State before the first iteration: month = 0, no rows, zero interest,
paid_off_month = {i: None for i in range(n)}. -/
def initState (debts : List Debt) : SimState :=
  { debts := debts, month := 0, rows := [], total_interest := 0,
    paid_off_month := List.replicate debts.length none }

/-- One full iteration of the while loop (steps 1-5 plus the snapshot
append), for a given monthly budget and fixed target order. -/
def stepMonth (budget : ℚ) (order : List Nat) (s : SimState) : SimState :=
  let month := s.month + 1
  let acc := accrueAll s.debts
  let pm := payMins acc.1
  let rb := budget - pm.2.sum
  let wf := waterfall pm.1 pm.2 rb order
  let mk := markPayoffs month wf.1 s.paid_off_month
  let ti := s.total_interest + acc.2.sum
  let row : Snapshot :=
    { month := month
      remaining_budget := round2 wf.2.2.1
      total_interest_to_date := round2 ti
      per_debt := (mk.1.zip wf.2.1).map fun dp => (round2 dp.1.balance, round2 dp.2) }
  { debts := mk.1, month := month, rows := s.rows ++ [row],
    total_interest := ti, paid_off_month := mk.2 }

/-- The guarded loop body: run one month when the while condition holds
(some balance > eps and month < 1200), otherwise leave the state fixed. -/
def stepCond (budget : ℚ) (order : List Nat) (s : SimState) : SimState :=
  if (∃ d ∈ s.debts, eps < d.balance) ∧ s.month < 1200 then stepMonth budget order s else s

/-- The state after m guarded iterations.  Each real iteration advances
the month counter by one and the guard requires month < 1200, so the
while loop of the source runs at most 1200 iterations and its final
state equals stateAt 1200 (once the guard fails the state is fixed). -/
def stateAt (debts0 : List Debt) (budget : ℚ) (order : List Nat) : Nat → SimState
  | 0 => initState debts0
  | m + 1 => stepCond budget order (stateAt debts0 budget order m)

/-- The state when the while loop has finished, for a strategy tag:
the order is computed once, up front, from the starting debt values. -/
def finalState (debts : List Debt) (budget : ℚ) (strategy : Strategy) : SimState :=
  stateAt debts budget (order_debts debts strategy) 1200

/-- How simulate fails: the bare assert n > 0, or a raised ValueError
with a human-readable message. -/
inductive SimError where
  | assertionFailure : SimError
  | valueError (msg : String) : SimError
deriving DecidableEq

deriving instance DecidableEq for Except

/-- The result dict built at the end of simulate.  Its components are
exactly the three entries the source puts in the dict: months,
total_interest (rounded to cents) and the name-keyed paid_off_months
mapping. -/
structure SimResult where
  months : Nat
  total_interest : ℚ
  paid_off_months : List (String × Option Nat)
deriving DecidableEq

/-- Python dict assignment d[k] = v on an insertion-ordered mapping:
an existing key keeps its position and takes the new value; a new key is
appended. -/
def dictInsert (k : String) (v : Option Nat) :
    List (String × Option Nat) → List (String × Option Nat)
  | [] => [(k, v)]
  | (k', v') :: rest =>
      if k' = k then (k', v) :: rest else (k', v') :: dictInsert k v rest

/-- The dict comprehension {debts[i].name: paid_off_month[i] for i in
range(n)}: successive dict assignments in index order, so two debts
sharing a name collapse to one entry holding the later index's value. -/
def buildPaidDict (debts : List Debt) (paid : List (Option Nat)) :
    List (String × Option Nat) :=
  (debts.zip paid).foldl (fun acc dp => dictInsert dp.1.name dp.2 acc) []

/-- Python dict lookup on the insertion-ordered mapping model. -/
def lookupDict (nm : String) (l : List (String × Option Nat)) : Option (Option Nat) :=
  (l.find? fun p => decide (p.1 = nm)).map Prod.snd

/-- simulate(debts_in, monthly_budget, strategy): the copy of the input
list is the identity on immutable values; then assert n > 0, the three
validation checks in source order, and the while loop; finally the rows
and the result dict.  The exact ValueError message texts interpolate the
offending values in the source; the messages here are fixed strings,
which no claim depends on. -/
def simulate (debts_in : List Debt) (monthly_budget : ℚ) (strategy : Strategy) :
    Except SimError (List Snapshot × SimResult) :=
  let debts := debts_in
  if debts.length = 0 then .error .assertionFailure
  else if ∃ d ∈ debts, d.balance < 0 ∨ d.min_pay < 0 ∨ d.apr_pct < 0 then
    .error (.valueError "Inputs must be non-negative.")
  else if monthly_budget ≤ 0 then
    .error (.valueError "Monthly budget must be > 0.")
  else if monthly_budget < ((debts.map Debt.min_pay).sum : ℚ) then
    .error (.valueError "Monthly budget is less than total minimum payments.")
  else
    let fs := finalState debts monthly_budget strategy
    .ok (fs.rows,
      { months := fs.month
        total_interest := round2 fs.total_interest
        paid_off_months := buildPaidDict debts fs.paid_off_month })

/-- True exactly when simulate raised a ValueError (as opposed to
succeeding or failing the assert). -/
def isValueError {α : Type} : Except SimError α → Bool
  | .error (.valueError _) => true
  | _ => false

/-- The summary dict of a successful run, if any. -/
def resultOf (debts : List Debt) (budget : ℚ) (strategy : Strategy) : Option SimResult :=
  match simulate debts budget strategy with
  | .ok p => some p.2
  | .error _ => none

/-- The snapshot rows of a successful run, if any. -/
def rowsOf (debts : List Debt) (budget : ℚ) (strategy : Strategy) : Option (List Snapshot) :=
  match simulate debts budget strategy with
  | .ok p => some p.1
  | .error _ => none

/-- The debts after steps 1 and 2 of a month (interest accrued, minimum
payments deducted) starting from the given current debts; this is the
list whose balances the waterfall of step 3 inspects. -/
def monthMid (debts : List Debt) : List Debt := (payMins (accrueAll debts).1).1

/-- The minimum payments collected in step 2 of a month. -/
def monthMinList (debts : List Debt) : List ℚ := (payMins (accrueAll debts).1).2

/-- Steps 1-3 of a month: the waterfall outcome (debts, payments,
remaining budget, extra target) reached from the given current debts.
stepMonth computes exactly this before marking payoffs. -/
def monthWf (budget : ℚ) (order : List Nat) (debts : List Debt) :
    List Debt × List ℚ × ℚ × Option (Nat × ℚ) :=
  waterfall (monthMid debts) (monthMinList debts) (budget - (monthMinList debts).sum) order

/-! ### Basic equations and length facts -/

theorem getD_set_ne {α : Type} (d : α) :
    ∀ (l : List α) (i j : Nat) (a : α), i ≠ j → (l.set i a).getD j d = l.getD j d := by
  intro l
  induction l with
  | nil => intro i j a _; simp
  | cons x xs ih =>
      intro i j a hij
      cases i with
      | zero =>
          cases j with
          | zero => exact absurd rfl hij
          | succ j => simp [List.getD]
      | succ i =>
          cases j with
          | zero => simp [List.getD]
          | succ j => simpa [List.getD] using ih i j a (fun h => hij (by rw [h]))

theorem getD_set_self {α : Type} (d : α) :
    ∀ (l : List α) (j : Nat) (a : α), j < l.length → (l.set j a).getD j d = a := by
  intro l
  induction l with
  | nil => intro j a h; simp at h
  | cons x xs ih =>
      intro j a h
      cases j with
      | zero => rfl
      | succ j => simpa [List.getD] using ih j a (by simpa using h)

theorem stateAt_succ (debts0 : List Debt) (budget : ℚ) (order : List Nat) (m : Nat) :
    stateAt debts0 budget order (m + 1) = stepCond budget order (stateAt debts0 budget order m) :=
  rfl

theorem stepCond_of_not {budget : ℚ} {order : List Nat} {s : SimState}
    (h : ¬ ((∃ d ∈ s.debts, eps < d.balance) ∧ s.month < 1200)) :
    stepCond budget order s = s := by
  unfold stepCond
  exact if_neg h

theorem stateAt_fix {debts0 : List Debt} {budget : ℚ} {order : List Nat} {k : Nat}
    (hfix : stepCond budget order (stateAt debts0 budget order k) = stateAt debts0 budget order k) :
    ∀ m, k ≤ m → stateAt debts0 budget order m = stateAt debts0 budget order k := by
  intro m hm
  induction m with
  | zero =>
      have : k = 0 := Nat.le_zero.mp hm
      rw [this]
  | succ m ih =>
      rcases Nat.lt_or_ge k (m + 1) with h | h
      · have hk : k ≤ m := Nat.lt_succ_iff.mp h
        rw [stateAt_succ, ih hk, hfix]
      · have : k = m + 1 := Nat.le_antisymm hm h
        rw [this]

theorem accrueAll_fst_length (debts : List Debt) : (accrueAll debts).1.length = debts.length := by
  simp [accrueAll]

theorem payMins_fst_length (debts : List Debt) : (payMins debts).1.length = debts.length := by
  simp [payMins]

theorem payMins_snd_length (debts : List Debt) : (payMins debts).2.length = debts.length := by
  simp [payMins]

theorem waterfall_fst_length (debts : List Debt) (payments : List ℚ) (rb : ℚ) (order : List Nat) :
    (waterfall debts payments rb order).1.length = debts.length := by
  unfold waterfall
  split
  · split <;> simp
  · rfl

theorem markPayoffs_fst_length (month : Nat) :
    ∀ (ds : List Debt) (ps : List (Option Nat)), (markPayoffs month ds ps).1.length = ds.length := by
  intro ds
  induction ds with
  | nil => intro ps; cases ps <;> rfl
  | cons d ds ih =>
      intro ps
      cases ps with
      | nil => rfl
      | cons p ps => simp [markPayoffs, ih]

theorem markPayoffs_snd_length (month : Nat) :
    ∀ (ds : List Debt) (ps : List (Option Nat)), ds.length = ps.length →
      (markPayoffs month ds ps).2.length = ps.length := by
  intro ds
  induction ds with
  | nil =>
      intro ps h
      cases ps with
      | nil => rfl
      | cons p ps => exact absurd h (by simp)
  | cons d ds ih =>
      intro ps h
      cases ps with
      | nil => exact absurd h (by simp)
      | cons p ps => simpa [markPayoffs] using ih ps (by simpa using h)

theorem stepMonth_debts_length (budget : ℚ) (order : List Nat) (s : SimState) :
    (stepMonth budget order s).debts.length = s.debts.length := by
  unfold stepMonth
  simp [markPayoffs_fst_length, waterfall_fst_length, payMins_fst_length, accrueAll_fst_length]

theorem stepMonth_paid_length (budget : ℚ) (order : List Nat) (s : SimState)
    (h : s.debts.length = s.paid_off_month.length) :
    (stepMonth budget order s).paid_off_month.length = s.paid_off_month.length := by
  unfold stepMonth
  simp only []
  rw [markPayoffs_snd_length]
  rw [waterfall_fst_length, payMins_fst_length, accrueAll_fst_length]
  exact h

theorem stateAt_debts_length (debts0 : List Debt) (budget : ℚ) (order : List Nat) :
    ∀ m, (stateAt debts0 budget order m).debts.length = debts0.length := by
  intro m
  induction m with
  | zero => rfl
  | succ m ih =>
      rw [stateAt_succ]
      unfold stepCond
      split
      · rw [stepMonth_debts_length]; exact ih
      · exact ih

theorem stateAt_paid_length (debts0 : List Debt) (budget : ℚ) (order : List Nat) :
    ∀ m, (stateAt debts0 budget order m).paid_off_month.length = debts0.length := by
  intro m
  induction m with
  | zero => simp [stateAt, initState]
  | succ m ih =>
      rw [stateAt_succ]
      unfold stepCond
      split
      · rw [stepMonth_paid_length _ _ _ (by rw [stateAt_debts_length, ih])]
        exact ih
      · exact ih

/-! ### C10 and C2: the assert on an empty debt list, and validation -/

/-- C10: simulate requires a non-empty debt list through the bare
assert n > 0: on the empty list, for any budget and strategy, it fails
with the assertion failure, not with the ValueError used by the
validation checks and not with a result. -/
theorem C10_empty_debts_assert (b : ℚ) (strat : Strategy) :
    simulate [] b strat = .error .assertionFailure := rfl

/-- C2 counterexample: the empty debt list with budget -1 satisfies the
claim's trigger "monthly budget ≤ 0", yet simulate fails with the
assertion failure (assert n > 0 runs first), not with a validation
ValueError — so the claim's universal statement over every such input
is false. -/
theorem C2_counterexample :
    simulate [] (-1) Strategy.snowball = .error .assertionFailure ∧
      isValueError (simulate [] (-1) Strategy.snowball) = false :=
  ⟨rfl, rfl⟩

/-- C2 as amended: for every input with at least one debt in which some
debt has a negative balance, minimum payment or rate, or the budget is
≤ 0, or the minimum payments sum to more than the budget, simulate
raises a ValueError.  The error is produced by the validation checks
that precede the loop, and an erroneous run carries no snapshot list at
all (the ok payload is never built), so no partial snapshot sequence
accompanies the error. -/
theorem C2_validation_rejects (debts : List Debt) (b : ℚ) (strat : Strategy)
    (hne : debts ≠ [])
    (hfault : (∃ d ∈ debts, d.balance < 0 ∨ d.min_pay < 0 ∨ d.apr_pct < 0) ∨
      b ≤ 0 ∨ b < (debts.map Debt.min_pay).sum) :
    isValueError (simulate debts b strat) = true := by
  have hlen : ¬ debts.length = 0 := by simpa using hne
  unfold simulate
  rw [if_neg hlen]
  by_cases h1 : ∃ d ∈ debts, d.balance < 0 ∨ d.min_pay < 0 ∨ d.apr_pct < 0
  · rw [if_pos h1]; rfl
  · rw [if_neg h1]
    by_cases h2 : b ≤ 0
    · rw [if_pos h2]; rfl
    · rw [if_neg h2]
      by_cases h3 : b < (debts.map Debt.min_pay).sum
      · rw [if_pos h3]; rfl
      · exact absurd hfault (by push_neg; exact ⟨fun d hd => by
          rcases h1 with h1
          push_neg at h1
          exact h1 d hd, lt_of_not_le h2, le_of_not_lt h3⟩)

/-- C2 witness: a debt with negative balance is rejected by a
ValueError. -/
theorem C2_validation_rejects_witness :
    isValueError (simulate [⟨"A", -1, 0, 0⟩] 10 Strategy.snowball) = true :=
  C2_validation_rejects [⟨"A", -1, 0, 0⟩] 10 Strategy.snowball (by simp)
    (Or.inl ⟨⟨"A", -1, 0, 0⟩, by simp, Or.inl (by norm_num)⟩)

/-! ### The strategy order: totality, transitivity, sortedness -/

theorem orderRel_refl (debts : List Debt) (strat : Strategy) (i : Nat) :
    orderRel debts strat i i := by
  cases strat
  · exact Or.inr ⟨rfl, Nat.le_refl i⟩
  · exact Or.inr ⟨rfl, Nat.le_refl i⟩

theorem orderRel_total (debts : List Debt) (strat : Strategy) (i j : Nat) :
    orderRel debts strat i j ∨ orderRel debts strat j i := by
  cases strat
  · rcases lt_trichotomy (debts.getD i default).balance (debts.getD j default).balance with h | h | h
    · exact Or.inl (Or.inl h)
    · rcases Nat.le_total i j with hij | hij
      · exact Or.inl (Or.inr ⟨h, hij⟩)
      · exact Or.inr (Or.inr ⟨h.symm, hij⟩)
    · exact Or.inr (Or.inl h)
  · rcases lt_trichotomy (debts.getD j default).apr_pct (debts.getD i default).apr_pct with h | h | h
    · exact Or.inl (Or.inl h)
    · rcases Nat.le_total i j with hij | hij
      · exact Or.inl (Or.inr ⟨h.symm, hij⟩)
      · exact Or.inr (Or.inr ⟨h, hij⟩)
    · exact Or.inr (Or.inl h)

theorem orderRel_trans (debts : List Debt) (strat : Strategy) (i j k : Nat)
    (hij : orderRel debts strat i j) (hjk : orderRel debts strat j k) :
    orderRel debts strat i k := by
  cases strat
  · rcases hij with h1 | ⟨e1, l1⟩
    · rcases hjk with h2 | ⟨e2, _⟩
      · exact Or.inl (h1.trans h2)
      · exact Or.inl (e2 ▸ h1)
    · rcases hjk with h2 | ⟨e2, l2⟩
      · exact Or.inl (e1 ▸ h2)
      · exact Or.inr ⟨e1.trans e2, l1.trans l2⟩
  · rcases hij with h1 | ⟨e1, l1⟩
    · rcases hjk with h2 | ⟨e2, _⟩
      · exact Or.inl (h2.trans h1)
      · exact Or.inl (e2 ▸ h1)
    · rcases hjk with h2 | ⟨e2, l2⟩
      · exact Or.inl (h2.trans_eq e1.symm)
      · exact Or.inr ⟨e1.trans e2, l1.trans l2⟩

theorem order_debts_sorted (debts : List Debt) (strat : Strategy) :
    List.Pairwise (orderRel debts strat) (order_debts debts strat) := by
  haveI : IsTotal Nat (orderRel debts strat) := ⟨orderRel_total debts strat⟩
  haveI : IsTrans Nat (orderRel debts strat) := ⟨orderRel_trans debts strat⟩
  exact List.sorted_insertionSort (orderRel debts strat) (List.range debts.length)

theorem order_debts_mem (debts : List Debt) (strat : Strategy) (j : Nat) :
    j ∈ order_debts debts strat ↔ j < debts.length := by
  unfold order_debts
  rw [(List.perm_insertionSort (orderRel debts strat) (List.range debts.length)).mem_iff]
  exact List.mem_range

theorem find?_first_of_pairwise {r : Nat → Nat → Prop} {p : Nat → Bool} :
    ∀ {l : List Nat} {t : Nat}, List.Pairwise r l → l.find? p = some t →
      ∀ j ∈ l, p j = true → t = j ∨ r t j := by
  intro l
  induction l with
  | nil => intro t _ hf; simp [List.find?] at hf
  | cons a l ih =>
      intro t hp hf j hj hpj
      by_cases hpa : p a = true
      · rw [List.find?_cons_of_pos _ hpa] at hf
        have ht : t = a := by injection hf with h; exact h.symm
        subst ht
        rcases List.mem_cons.mp hj with h | h
        · exact Or.inl h.symm
        · exact Or.inr ((List.pairwise_cons.mp hp).1 j h)
      · rw [List.find?_cons_of_neg _ hpa] at hf
        rcases List.mem_cons.mp hj with h | h
        · exact absurd (h ▸ hpj) hpa
        · exact ih (List.pairwise_cons.mp hp).2 hf j h hpj

/-! ### Waterfall case analysis -/

theorem waterfall_target_spec {debts : List Debt} {payments : List ℚ} {rb : ℚ}
    {order : List Nat} {t : Nat} {e : ℚ}
    (h : (waterfall debts payments rb order).2.2.2 = some (t, e)) :
    0 < rb ∧
      order.find? (fun idx => decide (eps < (debts.getD idx default).balance)) = some t ∧
      e = min rb (debts.getD t default).balance ∧
      waterfall debts payments rb order =
        (debts.set t { debts.getD t default with balance := (debts.getD t default).balance - e },
          payments.set t (payments.getD t 0 + e), rb - e, some (t, e)) := by
  unfold waterfall at h ⊢
  split at h
  case isTrue hrb =>
    split at h
    case h_1 idx hfind =>
      simp only at h
      injection h with h1
      cases h1
      refine ⟨hrb, hfind, rfl, ?_⟩
      rw [if_pos hrb]
    case h_2 => simp at h
  case isFalse => simp at h

theorem waterfall_no_target {debts : List Debt} {payments : List ℚ} {rb : ℚ}
    {order : List Nat}
    (h : (waterfall debts payments rb order).2.2.2 = none) :
    waterfall debts payments rb order = (debts, payments, rb, none) := by
  unfold waterfall at h ⊢
  split at h
  case isTrue hrb =>
    split at h
    case h_1 idx hfind => simp at h
    case h_2 hfind =>
      rw [if_pos hrb]
  case isFalse hrb => rw [if_neg hrb]

theorem eps_pos : 0 < eps := by norm_num [eps]

theorem monthMid_length (debts : List Debt) : (monthMid debts).length = debts.length := by
  unfold monthMid
  rw [payMins_fst_length, accrueAll_fst_length]

theorem monthMinList_length (debts : List Debt) : (monthMinList debts).length = debts.length := by
  unfold monthMinList
  rw [payMins_snd_length, accrueAll_fst_length]

/-- C3: in any month (any current debts of the right length), at most
one debt receives an extra (above-minimum) payment: every index whose
payment differs from its minimum payment is the waterfall's unique
target.  And that target is the first debt in the order fixed from the
month-0 debt values whose current (post-interest, post-minimum) balance
exceeds eps: it is minimal, among all still-unpaid debts, in the
strategy order orderRel — for Snowball, smaller original balance or
equal balance with smaller or equal input index; for Avalanche, higher
original APR or equal APR with smaller or equal input index (ties go to
the first listed debt).  simulate computes each month with exactly this
order, order_debts of the starting debts. -/
theorem monthWf_eq (budget : ℚ) (order : List Nat) (debts : List Debt) :
    monthWf budget order debts =
      waterfall (monthMid debts) (monthMinList debts)
        (budget - (monthMinList debts).sum) order := rfl

theorem C3_waterfall_order (debts0 : List Debt) (strat : Strategy) (cur : List Debt)
    (budget : ℚ) (hlen : cur.length = debts0.length) :
    (∀ i, (monthWf budget (order_debts debts0 strat) cur).2.1.getD i 0 ≠
          (monthMinList cur).getD i 0 →
        ∃ e, 0 < e ∧ (monthWf budget (order_debts debts0 strat) cur).2.2.2 = some (i, e)) ∧
      ∀ t e, (monthWf budget (order_debts debts0 strat) cur).2.2.2 = some (t, e) →
        eps < ((monthMid cur).getD t default).balance ∧
          ∀ j, j < cur.length → eps < ((monthMid cur).getD j default).balance →
            orderRel debts0 strat t j := by
  rw [monthWf_eq]
  constructor
  · intro i hi
    cases hW : (waterfall (monthMid cur) (monthMinList cur)
        (budget - (monthMinList cur).sum) (order_debts debts0 strat)).2.2.2 with
    | none =>
        rw [waterfall_no_target hW] at hi
        exact absurd rfl hi
    | some te =>
        obtain ⟨t, e⟩ := te
        obtain ⟨hrb, hfind, hext, heq⟩ := waterfall_target_spec hW
        by_cases hit : i = t
        · subst hit
          refine ⟨e, ?_, rfl⟩
          have h1 := List.find?_some hfind
          simp only [decide_eq_true_eq] at h1
          rw [hext]
          exact lt_min hrb (lt_trans eps_pos h1)
        · exfalso
          rw [heq] at hi
          simp only at hi
          rw [getD_set_ne 0 (monthMinList cur) t i
            ((monthMinList cur).getD t 0 + e) (fun h => hit h.symm)] at hi
          exact absurd rfl hi
  · intro t e hW
    obtain ⟨hrb, hfind, hext, heq⟩ := waterfall_target_spec hW
    have hpt := List.find?_some hfind
    simp only [decide_eq_true_eq] at hpt
    refine ⟨hpt, ?_⟩
    intro j hj hpj
    have hjO : j ∈ order_debts debts0 strat :=
      (order_debts_mem debts0 strat j).mpr (hlen ▸ hj)
    rcases find?_first_of_pairwise (order_debts_sorted debts0 strat) hfind j hjO
        (decide_eq_true hpj) with h | h
    · exact h ▸ orderRel_refl debts0 strat t
    · exact h

/-- C3 witness: with debts X (balance 100) and Y (balance 50), budget
10 and Snowball, the month's extra goes to index 1 (Y, the smaller
original balance), and the theorem yields the order fact placing 1
before the still-unpaid index 0. -/
theorem C3_waterfall_order_witness :
    orderRel [⟨"X", 100, 0, 1⟩, ⟨"Y", 50, 0, 1⟩] Strategy.snowball 1 0 :=
  ((C3_waterfall_order [⟨"X", 100, 0, 1⟩, ⟨"Y", 50, 0, 1⟩] Strategy.snowball
      [⟨"X", 100, 0, 1⟩, ⟨"Y", 50, 0, 1⟩] 10 rfl).2 1 8
    (by with_unfolding_all decide)).2 0 (by norm_num) (by with_unfolding_all decide)

/-! ### Balances stay nonnegative (C4) -/

theorem round2_nonneg {x : ℚ} (h : 0 ≤ x) : 0 ≤ round2 x := by
  unfold round2
  apply div_nonneg _ (by norm_num)
  have : (0 : ℤ) ≤ ⌊x * 100 + 1 / 2⌋ := Int.le_floor.mpr (by push_cast; positivity)
  exact_mod_cast this

theorem accrueOne_fst_cases (d : Debt) :
    (accrueOne d).1 = d ∨
      (accrueOne d).1 = { d with balance := d.balance + d.balance * monthly_rate d.apr_pct } := by
  unfold accrueOne
  split
  · exact Or.inl rfl
  · exact Or.inr rfl

theorem payMinOne_fst_cases (d : Debt) :
    (payMinOne d).1 = d ∨
      (payMinOne d).1 = { d with balance := d.balance - min d.min_pay d.balance } := by
  unfold payMinOne
  split
  · exact Or.inl rfl
  · exact Or.inr rfl

theorem markOne_fst_cases (month : Nat) (d : Debt) (p : Option Nat) :
    (markOne month d p).1 = d ∨ (markOne month d p).1 = { d with balance := 0 } := by
  unfold markOne
  split
  · exact Or.inr rfl
  · exact Or.inl rfl

theorem accrueAll_fst_mem {debts : List Debt} {d' : Debt} (h : d' ∈ (accrueAll debts).1) :
    ∃ d ∈ debts, d' = (accrueOne d).1 := by
  simp only [accrueAll, List.map_map, List.mem_map, Function.comp] at h
  obtain ⟨d, hd, hd'⟩ := h
  exact ⟨d, hd, hd'.symm⟩

theorem payMins_fst_mem {debts : List Debt} {d' : Debt} (h : d' ∈ (payMins debts).1) :
    ∃ d ∈ debts, d' = (payMinOne d).1 := by
  simp only [payMins, List.map_map, List.mem_map, Function.comp] at h
  obtain ⟨d, hd, hd'⟩ := h
  exact ⟨d, hd, hd'.symm⟩

theorem accrueAll_nonneg {debts : List Debt}
    (hb : ∀ d ∈ debts, 0 ≤ d.balance) (ha : ∀ d ∈ debts, 0 ≤ d.apr_pct) :
    ∀ d' ∈ (accrueAll debts).1, 0 ≤ d'.balance := by
  intro d' hd'
  obtain ⟨d, hd, rfl⟩ := accrueAll_fst_mem hd'
  rcases accrueOne_fst_cases d with h | h
  · rw [h]; exact hb d hd
  · rw [h]
    have hr : 0 ≤ monthly_rate d.apr_pct := by
      unfold monthly_rate
      exact div_nonneg (div_nonneg (ha d hd) (by norm_num)) (by norm_num)
    exact add_nonneg (hb d hd) (mul_nonneg (hb d hd) hr)

theorem payMins_nonneg {debts : List Debt} (hb : ∀ d ∈ debts, 0 ≤ d.balance) :
    ∀ d' ∈ (payMins debts).1, 0 ≤ d'.balance := by
  intro d' hd'
  obtain ⟨d, hd, rfl⟩ := payMins_fst_mem hd'
  rcases payMinOne_fst_cases d with h | h
  · rw [h]; exact hb d hd
  · rw [h]
    exact sub_nonneg.mpr (min_le_right _ _)

theorem waterfall_fst_nonneg {debts : List Debt} {payments : List ℚ} {rb : ℚ}
    {order : List Nat} (hb : ∀ d ∈ debts, 0 ≤ d.balance) :
    ∀ d' ∈ (waterfall debts payments rb order).1, 0 ≤ d'.balance := by
  intro d' hd'
  unfold waterfall at hd'
  split at hd'
  · split at hd'
    · rcases List.mem_or_eq_of_mem_set hd' with h | h
      · exact hb d' h
      · rw [h]
        exact sub_nonneg.mpr (min_le_right _ _)
    · exact hb d' hd'
  · exact hb d' hd'

theorem markPayoffs_fst_nonneg (month : Nat) :
    ∀ (ds : List Debt) (ps : List (Option Nat)), (∀ d ∈ ds, 0 ≤ d.balance) →
      ∀ d' ∈ (markPayoffs month ds ps).1, 0 ≤ d'.balance := by
  intro ds
  induction ds with
  | nil =>
      intro ps _ d' hd'
      cases ps <;> simp [markPayoffs] at hd'
  | cons d ds ih =>
      intro ps hb d' hd'
      cases ps with
      | nil => exact hb d' hd'
      | cons p ps =>
          simp only [markPayoffs, List.mem_cons] at hd'
          rcases hd' with h | h
          · rcases markOne_fst_cases month d p with hc | hc
            · rw [h, hc]; exact hb d (by simp)
            · rw [h, hc]
          · exact ih ps (fun x hx => hb x (by simp [hx])) d' h

/-- Setting an index to an element with the same f-image leaves the
f-image of the list unchanged. -/
theorem map_set_of_eq {α β : Type} (f : α → β) :
    ∀ (l : List α) (i : Nat) (a : α), f a = f (l.getD i a) → (l.set i a).map f = l.map f := by
  intro l
  induction l with
  | nil => intro i a _; simp
  | cons x xs ih =>
      intro i a h
      cases i with
      | zero => simpa [List.set] using h
      | succ i => simpa [List.set] using ih i a h

/-- Any per-debt field other than the balance survives a whole month:
interest accrual, minimum payment, the waterfall and payoff marking
only ever replace a debt by a balance-updated copy of itself. -/
theorem stepMonth_map_eq {β : Type} (f : Debt → β)
    (hf : ∀ (d : Debt) (q : ℚ), f { d with balance := q } = f d)
    (budget : ℚ) (order : List Nat) (s : SimState) :
    (stepMonth budget order s).debts.map f = s.debts.map f := by
  have haccrue : ∀ ds : List Debt, (accrueAll ds).1.map f = ds.map f := by
    intro ds
    simp only [accrueAll, List.map_map]
    apply List.map_congr_left
    intro d _
    rcases accrueOne_fst_cases d with h | h <;> simp [Function.comp, h, hf]
  have hpay : ∀ ds : List Debt, (payMins ds).1.map f = ds.map f := by
    intro ds
    simp only [payMins, List.map_map]
    apply List.map_congr_left
    intro d _
    rcases payMinOne_fst_cases d with h | h <;> simp [Function.comp, h, hf]
  have hwf : ∀ (ds : List Debt) (pay : List ℚ) (rb : ℚ) (o : List Nat),
      (waterfall ds pay rb o).1.map f = ds.map f := by
    intro ds pay rb o
    unfold waterfall
    split
    · split
      · apply map_set_of_eq
        have h1 : ∀ (d : Debt) (q : ℚ), f { d with balance := q } = f d := hf
        rename_i idx _
        by_cases hlt : idx < ds.length
        · rw [List.getD_eq_getElem ds _ hlt, List.getD_eq_getElem ds _ hlt]
          exact h1 _ _
        · have h2 : ∀ b : Debt, ds.getD idx b = b := by
            intro b
            unfold List.getD
            rw [List.get?_eq_none.mpr (le_of_not_lt hlt)]
            rfl
          rw [h2, h2]
      · rfl
    · rfl
  have hmark : ∀ (mo : Nat) (ds : List Debt) (ps : List (Option Nat)),
      (markPayoffs mo ds ps).1.map f = ds.map f := by
    intro mo ds
    induction ds with
    | nil => intro ps; cases ps <;> rfl
    | cons d ds ih =>
        intro ps
        cases ps with
        | nil => rfl
        | cons p ps =>
            simp only [markPayoffs, List.map_cons]
            rw [ih ps]
            rcases markOne_fst_cases mo d p with h | h <;> rw [h]
            rw [hf]
  unfold stepMonth
  simp only []
  rw [hmark, hwf, hpay, haccrue]

theorem stateAt_apr_map (debts0 : List Debt) (budget : ℚ) (order : List Nat) :
    ∀ m, (stateAt debts0 budget order m).debts.map Debt.apr_pct = debts0.map Debt.apr_pct := by
  intro m
  induction m with
  | zero => rfl
  | succ m ih =>
      rw [stateAt_succ]
      unfold stepCond
      split
      · rw [stepMonth_map_eq Debt.apr_pct (fun _ _ => rfl)]
        exact ih
      · exact ih

theorem stateAt_min_pay_map (debts0 : List Debt) (budget : ℚ) (order : List Nat) :
    ∀ m, (stateAt debts0 budget order m).debts.map Debt.min_pay = debts0.map Debt.min_pay := by
  intro m
  induction m with
  | zero => rfl
  | succ m ih =>
      rw [stateAt_succ]
      unfold stepCond
      split
      · rw [stepMonth_map_eq Debt.min_pay (fun _ _ => rfl)]
        exact ih
      · exact ih

theorem apr_nonneg_of_map {debts0 cur : List Debt}
    (hmap : cur.map Debt.apr_pct = debts0.map Debt.apr_pct)
    (ha : ∀ d ∈ debts0, 0 ≤ d.apr_pct) : ∀ d ∈ cur, 0 ≤ d.apr_pct := by
  intro d hd
  have : d.apr_pct ∈ cur.map Debt.apr_pct := List.mem_map_of_mem Debt.apr_pct hd
  rw [hmap] at this
  obtain ⟨d0, hd0, he⟩ := List.mem_map.mp this
  exact he ▸ ha d0 hd0

theorem stepMonth_balance_nonneg {budget : ℚ} {order : List Nat} {s : SimState}
    (hb : ∀ d ∈ s.debts, 0 ≤ d.balance) (ha : ∀ d ∈ s.debts, 0 ≤ d.apr_pct) :
    ∀ d' ∈ (stepMonth budget order s).debts, 0 ≤ d'.balance := by
  unfold stepMonth
  simp only []
  exact markPayoffs_fst_nonneg _ _ _
    (waterfall_fst_nonneg (payMins_nonneg (accrueAll_nonneg hb ha)))

theorem fst_mem_of_mem_zip {α β : Type} :
    ∀ {l₁ : List α} {l₂ : List β} {p : α × β}, p ∈ l₁.zip l₂ → p.1 ∈ l₁ := by
  intro l₁
  induction l₁ with
  | nil => intro l₂ p h; simp [List.zip] at h
  | cons a l₁ ih =>
      intro l₂ p h
      cases l₂ with
      | nil => simp [List.zip] at h
      | cons b l₂ =>
          rcases List.mem_cons.mp h with h | h
          · rw [h]; simp
          · exact List.mem_cons.mpr (Or.inr (ih h))

/-- The month step appends exactly one snapshot, carrying the new month
number and the per-debt (balance, paid) pairs of the month, rounded. -/
theorem stepMonth_rows (budget : ℚ) (order : List Nat) (s : SimState) :
    ∃ row, (stepMonth budget order s).rows = s.rows ++ [row] ∧
      row.per_debt = ((stepMonth budget order s).debts.zip
        (monthWf budget order s.debts).2.1).map
          (fun dp => (round2 dp.1.balance, round2 dp.2)) ∧
      row.month = s.month + 1 := by
  exact ⟨_, rfl, rfl, rfl⟩

/-- C4: from any starting debts with nonnegative balances and rates —
as the validation guarantees for every input simulate accepts — after
every simulated month every debt's balance is ≥ 0 (the minimum payment
is capped at the balance and the extra payment at the target's
remaining balance), and every recorded snapshot shows only nonnegative
balances. -/
theorem C4_balances_nonneg (debts0 : List Debt) (budget : ℚ) (order : List Nat)
    (hb : ∀ d ∈ debts0, 0 ≤ d.balance) (ha : ∀ d ∈ debts0, 0 ≤ d.apr_pct) :
    ∀ m, (∀ d ∈ (stateAt debts0 budget order m).debts, 0 ≤ d.balance) ∧
      ∀ row ∈ (stateAt debts0 budget order m).rows, ∀ pd ∈ row.per_debt, 0 ≤ pd.1 := by
  intro m
  induction m with
  | zero =>
      refine ⟨hb, ?_⟩
      intro row hrow
      simp [stateAt, initState] at hrow
  | succ m ih =>
      rw [stateAt_succ]
      unfold stepCond
      split
      case isFalse => exact ih
      case isTrue hcond =>
        have hnext : ∀ d ∈ (stepMonth budget order (stateAt debts0 budget order m)).debts,
            0 ≤ d.balance :=
          stepMonth_balance_nonneg ih.1
            (apr_nonneg_of_map (stateAt_apr_map debts0 budget order m) ha)
        refine ⟨hnext, ?_⟩
        obtain ⟨row, hrows, hpd, _⟩ := stepMonth_rows budget order (stateAt debts0 budget order m)
        rw [hrows]
        intro r hr
        rcases List.mem_append.mp hr with h | h
        · exact ih.2 r h
        · have hr' : r = row := by simpa using h
          subst hr'
          rw [hpd]
          intro pd hpdm
          obtain ⟨dp, hdp, he⟩ := List.mem_map.mp hpdm
          have : 0 ≤ dp.1.balance := hnext dp.1 (fst_mem_of_mem_zip hdp)
          rw [← he]
          exact round2_nonneg this

/-- C4 witness: one debt of balance 10 at 12 percent APR with minimum 1
and budget 5; after two months its balance is still nonnegative. -/
theorem C4_balances_nonneg_witness :
    0 ≤ ((stateAt [⟨"A", 10, 12, 1⟩] 5 [0] 2).debts.getD 0 default).balance :=
  (C4_balances_nonneg [⟨"A", 10, 12, 1⟩] 5 [0]
      (by intro d hd; simp at hd; rw [hd]; norm_num)
      (by intro d hd; simp at hd; rw [hd]; norm_num) 2).1 _
    (by with_unfolding_all decide)

/-! ### Paid-off months are stable and paid debts stay at exactly 0 (C5) -/

theorem getD_of_le {α : Type} (d : α) {l : List α} {i : Nat} (h : l.length ≤ i) :
    l.getD i d = d := by
  unfold List.getD
  rw [List.get?_eq_none.mpr h]
  rfl

theorem getD_replicate_none {α : Type} (n i : Nat) :
    (List.replicate n (none : Option α)).getD i none = none := by
  rcases Nat.lt_or_ge i n with h | h
  · rw [List.getD_eq_getElem _ _ (by simpa using h)]
    simp
  · exact getD_of_le none (by simpa using h)

theorem getD_map_comp {α β : Type} (f : α → β) (da : α) (db : β) (_hd : f da = db) :
    ∀ (l : List α) (i : Nat), i < l.length → (l.map f).getD i db = f (l.getD i da) := by
  intro l
  induction l with
  | nil => intro i h; simp at h
  | cons x xs ih =>
      intro i h
      cases i with
      | zero => rfl
      | succ i => simpa [List.getD] using ih i (by simpa using h)

theorem accrueAll_fst_eq (ds : List Debt) :
    (accrueAll ds).1 = ds.map (fun d => (accrueOne d).1) := by
  simp [accrueAll, List.map_map]

theorem payMins_fst_eq (ds : List Debt) :
    (payMins ds).1 = ds.map (fun d => (payMinOne d).1) := by
  simp [payMins, List.map_map]

theorem payMins_snd_eq (ds : List Debt) :
    (payMins ds).2 = ds.map (fun d => (payMinOne d).2) := by
  simp [payMins, List.map_map]

theorem accrueOne_zero {d : Debt} (h : d.balance = 0) : (accrueOne d).1 = d := by
  unfold accrueOne
  rw [if_pos (le_of_eq h)]

theorem payMinOne_zero {d : Debt} (h : d.balance = 0) : (payMinOne d).1 = d := by
  unfold payMinOne
  rw [if_pos (le_of_eq h)]

theorem monthMid_getD_zero {ds : List Debt} {i : Nat}
    (hi : i < ds.length) (hz : (ds.getD i default).balance = 0) :
    (monthMid ds).getD i default = ds.getD i default := by
  have a1 : (accrueAll ds).1.getD i default = ds.getD i default := by
    rw [accrueAll_fst_eq,
      getD_map_comp (fun d => (accrueOne d).1) default default (accrueOne_zero rfl) ds i hi,
      accrueOne_zero hz]
  have hlen1 : i < (accrueAll ds).1.length := by rw [accrueAll_fst_length]; exact hi
  unfold monthMid
  rw [payMins_fst_eq,
    getD_map_comp (fun d => (payMinOne d).1) default default (payMinOne_zero rfl) _ i hlen1,
    a1, payMinOne_zero hz]

/-- A debt whose balance is 0 keeps balance 0 through interest accrual,
minimum payments and the waterfall (the waterfall can only target a
debt with balance above eps > 0). -/
theorem monthWf_zero_keep (budget : ℚ) (order : List Nat) {ds : List Debt} {i : Nat}
    (hi : i < ds.length) (hz : (ds.getD i default).balance = 0) :
    ((monthWf budget order ds).1.getD i default).balance = 0 := by
  have hmid := monthMid_getD_zero hi hz
  rw [monthWf_eq]
  cases hW : (waterfall (monthMid ds) (monthMinList ds)
      (budget - (monthMinList ds).sum) order).2.2.2 with
  | none =>
      rw [waterfall_no_target hW]
      rw [hmid, hz]
  | some te =>
      obtain ⟨t, e⟩ := te
      obtain ⟨hrb, hfind, hext, heq⟩ := waterfall_target_spec hW
      have hpt := List.find?_some hfind
      simp only [decide_eq_true_eq] at hpt
      have hti : t ≠ i := by
        intro h
        rw [h, hmid, hz] at hpt
        exact absurd hpt (by norm_num [eps])
      rw [heq]
      simp only
      rw [getD_set_ne default (monthMid ds) t i _ hti, hmid, hz]

/-- Pointwise characterization of the payoff-marking pass. -/
theorem markPayoffs_getD (mo : Nat) :
    ∀ (ds : List Debt) (ps : List (Option Nat)) (i : Nat), ds.length = ps.length →
      i < ds.length →
      (markPayoffs mo ds ps).1.getD i default = (markOne mo (ds.getD i default) (ps.getD i none)).1 ∧
      (markPayoffs mo ds ps).2.getD i none = (markOne mo (ds.getD i default) (ps.getD i none)).2 := by
  intro ds
  induction ds with
  | nil => intro ps i _ h; simp at h
  | cons d ds ih =>
      intro ps i hlen hi
      cases ps with
      | nil => simp at hlen
      | cons p ps =>
          cases i with
          | zero => exact ⟨rfl, rfl⟩
          | succ i =>
              have := ih ps i (by simpa using hlen) (by simpa using hi)
              simpa [markPayoffs, List.getD] using this

theorem monthWf_fst_length (budget : ℚ) (order : List Nat) (ds : List Debt) :
    (monthWf budget order ds).1.length = ds.length := by
  rw [monthWf_eq, waterfall_fst_length, monthMid_length]

/-- Pointwise characterization of one month step: the debt and paid
entry at index i after the step are the payoff-marking of the waterfall
outcome at i against the old paid entry. -/
theorem stepMonth_getD (budget : ℚ) (order : List Nat) (s : SimState) (i : Nat)
    (hlen : s.debts.length = s.paid_off_month.length) (hi : i < s.debts.length) :
    (stepMonth budget order s).debts.getD i default =
        (markOne (s.month + 1) ((monthWf budget order s.debts).1.getD i default)
          (s.paid_off_month.getD i none)).1 ∧
      (stepMonth budget order s).paid_off_month.getD i none =
        (markOne (s.month + 1) ((monthWf budget order s.debts).1.getD i default)
          (s.paid_off_month.getD i none)).2 :=
  markPayoffs_getD (s.month + 1) (monthWf budget order s.debts).1 s.paid_off_month i
    (by rw [monthWf_fst_length]; exact hlen)
    (by rw [monthWf_fst_length]; exact hi)

/-- In every reachable state, a debt whose payoff month is recorded has
balance exactly 0. -/
theorem stateAt_paid_zero (debts0 : List Debt) (budget : ℚ) (order : List Nat) :
    ∀ m i k, (stateAt debts0 budget order m).paid_off_month.getD i none = some k →
      ((stateAt debts0 budget order m).debts.getD i default).balance = 0 := by
  intro m
  induction m with
  | zero =>
      intro i k h
      simp only [stateAt, initState] at h
      rw [getD_replicate_none] at h
      exact absurd h (by simp)
  | succ m ih =>
      intro i k h
      rw [stateAt_succ] at h ⊢
      unfold stepCond at h ⊢
      by_cases hc : (∃ d ∈ (stateAt debts0 budget order m).debts, eps < d.balance) ∧
          (stateAt debts0 budget order m).month < 1200
      · rw [if_pos hc] at h ⊢
        have hlen : (stateAt debts0 budget order m).debts.length =
            (stateAt debts0 budget order m).paid_off_month.length := by
          rw [stateAt_debts_length, stateAt_paid_length]
        have hi : i < (stateAt debts0 budget order m).debts.length := by
          by_contra hni
          have hge : (stateAt debts0 budget order m).debts.length ≤ i := le_of_not_lt hni
          have hplen : (stepMonth budget order (stateAt debts0 budget order m)).paid_off_month.length ≤ i := by
            rw [stepMonth_paid_length _ _ _ hlen, ← hlen]
            exact hge
          rw [getD_of_le none hplen] at h
          exact absurd h (by simp)
        obtain ⟨hd, hp⟩ := stepMonth_getD budget order (stateAt debts0 budget order m) i hlen hi
        rw [hp] at h
        rw [hd]
        unfold markOne at h ⊢
        by_cases hcnd : ((monthWf budget order (stateAt debts0 budget order m).debts).1.getD i
              default).balance ≤ eps ∧
            (stateAt debts0 budget order m).paid_off_month.getD i none = none
        · rw [if_pos hcnd]
        · rw [if_neg hcnd] at h ⊢
          exact monthWf_zero_keep budget order hi (ih i k h)
      · rw [if_neg hc] at h ⊢
        exact ih i k h

/-- A recorded payoff month survives a month step unchanged. -/
theorem stepMonth_paid_keep {budget : ℚ} {order : List Nat} {s : SimState} {i : Nat} {k : Nat}
    (hlen : s.debts.length = s.paid_off_month.length)
    (hp : s.paid_off_month.getD i none = some k) :
    (stepMonth budget order s).paid_off_month.getD i none = some k := by
  have hi : i < s.debts.length := by
    by_contra hni
    rw [getD_of_le none (hlen ▸ le_of_not_lt hni)] at hp
    exact absurd hp (by simp)
  obtain ⟨_, hpe⟩ := stepMonth_getD budget order s i hlen hi
  rw [hpe]
  unfold markOne
  have hne : ¬(((monthWf budget order s.debts).1.getD i default).balance ≤ eps ∧
      s.paid_off_month.getD i none = none) := by
    intro hand
    rw [hp] at hand
    exact absurd hand.2 (by simp)
  rw [if_neg hne]
  exact hp

/-- C5: once a debt's payoff month is recorded at some state, it is
never reassigned at any later month, and that debt's balance is exactly
0 in every later state — no interest accrues on it, no payment is taken
from it, and the waterfall never selects it again. -/
theorem C5_paid_off_stable (debts0 : List Debt) (budget : ℚ) (order : List Nat)
    (m m' i k : Nat) (hmm : m ≤ m')
    (hp : (stateAt debts0 budget order m).paid_off_month.getD i none = some k) :
    (stateAt debts0 budget order m').paid_off_month.getD i none = some k ∧
      ((stateAt debts0 budget order m').debts.getD i default).balance = 0 := by
  induction m' with
  | zero =>
      have h0 : m = 0 := Nat.le_zero.mp hmm
      subst h0
      exact ⟨hp, stateAt_paid_zero debts0 budget order 0 i k hp⟩
  | succ m' ih =>
      rcases Nat.lt_or_ge m (m' + 1) with h | h
      · have h1 := ih (Nat.lt_succ_iff.mp h)
        have hpnext : (stateAt debts0 budget order (m' + 1)).paid_off_month.getD i none = some k := by
          rw [stateAt_succ]
          unfold stepCond
          split
          · exact stepMonth_paid_keep
              (by rw [stateAt_debts_length, stateAt_paid_length]) h1.1
          · exact h1.1
        exact ⟨hpnext, stateAt_paid_zero debts0 budget order (m' + 1) i k hpnext⟩
      · have he : m = m' + 1 := Nat.le_antisymm hmm h
        subst he
        exact ⟨hp, stateAt_paid_zero debts0 budget order (m' + 1) i k hp⟩

/-- C5 witness: a single debt paid off in month 1 still shows payoff
month 1 and balance 0 at month 3. -/
theorem C5_paid_off_stable_witness :
    (stateAt [⟨"A", 10, 0, 0⟩] 20 [0] 3).paid_off_month.getD 0 none = some 1 ∧
      ((stateAt [⟨"A", 10, 0, 0⟩] 20 [0] 3).debts.getD 0 default).balance = 0 :=
  C5_paid_off_stable [⟨"A", 10, 0, 0⟩] 20 [0] 1 3 0 1 (by norm_num)
    (by with_unfolding_all decide)

/-! ### Budget conservation in a month (C6) -/

theorem waterfall_none_cases {debts : List Debt} {payments : List ℚ} {rb : ℚ}
    {order : List Nat}
    (h : (waterfall debts payments rb order).2.2.2 = none) :
    ¬ 0 < rb ∨
      order.find? (fun idx => decide (eps < (debts.getD idx default).balance)) = none := by
  unfold waterfall at h
  split at h
  case isTrue hrb =>
    split at h
    case h_1 idx hfind => simp at h
    case h_2 hfind => exact Or.inr hfind
  case isFalse hrb => exact Or.inl hrb

/-- Marking payoffs neither creates nor destroys a debt with balance
above eps: it only snaps balances already ≤ eps to 0. -/
theorem markPayoffs_exists_unpaid (mo : Nat) :
    ∀ (ds : List Debt) (ps : List (Option Nat)),
      (∃ d ∈ (markPayoffs mo ds ps).1, eps < d.balance) ↔ (∃ d ∈ ds, eps < d.balance) := by
  intro ds
  induction ds with
  | nil => intro ps; cases ps <;> simp [markPayoffs]
  | cons d ds ih =>
      intro ps
      cases ps with
      | nil => simp [markPayoffs]
      | cons p ps =>
          simp only [markPayoffs, List.mem_cons, exists_eq_or_imp]
          constructor
          · rintro (h | h)
            · left
              unfold markOne at h
              split at h
              case isTrue hc =>
                exfalso
                simp only at h
                exact absurd h (by norm_num [eps])
              case isFalse hc => exact h
            · right
              exact ((ih ps).mp (by simpa using h))
          · rintro (h | h)
            · left
              unfold markOne
              split
              case isTrue hc => exact absurd h (not_lt.mpr hc.1)
              case isFalse hc => exact h
            · right
              simpa using ((ih ps).mpr h)

theorem accrueAll_map_min_pay (ds : List Debt) :
    (accrueAll ds).1.map Debt.min_pay = ds.map Debt.min_pay := by
  rw [accrueAll_fst_eq, List.map_map]
  apply List.map_congr_left
  intro d _
  rcases accrueOne_fst_cases d with h | h <;> simp [Function.comp, h]

theorem payMinOne_snd_le (d : Debt) (h : 0 ≤ d.min_pay) : (payMinOne d).2 ≤ d.min_pay := by
  unfold payMinOne
  split
  · exact h
  · exact min_le_left _ _

theorem monthMinList_sum_le (ds : List Debt) (hmp : ∀ d ∈ ds, 0 ≤ d.min_pay) :
    (monthMinList ds).sum ≤ (ds.map Debt.min_pay).sum := by
  have h1 : (monthMinList ds) = (accrueAll ds).1.map (fun d => (payMinOne d).2) := by
    unfold monthMinList
    rw [payMins_snd_eq]
  have h2 : ∀ d ∈ (accrueAll ds).1, 0 ≤ d.min_pay := by
    intro d' hd'
    obtain ⟨d, hd, rfl⟩ := accrueAll_fst_mem hd'
    rcases accrueOne_fst_cases d with h | h <;> rw [h] <;> exact hmp d hd
  calc (monthMinList ds).sum
      = ((accrueAll ds).1.map (fun d => (payMinOne d).2)).sum := by rw [h1]
    _ ≤ ((accrueAll ds).1.map Debt.min_pay).sum :=
        List.sum_le_sum (fun d hd => payMinOne_snd_le d (h2 d hd))
    _ = (ds.map Debt.min_pay).sum := by rw [accrueAll_map_min_pay]

/-- C6 as amended: in any month from a state whose debts have
nonnegative minimum payments summing to at most the budget (as
validation guarantees), the per-debt payments of the month sum to
budget minus the leftover remaining budget, hence to at most the
budget; and when at least one debt is still unpaid (balance above eps)
at the end of the month, either the leftover is 0 — the payments sum to
exactly the budget — or the month's single waterfall target was paid
off by an extra smaller than the remaining budget, and the rest of the
budget is left unspent (the source breaks out of the waterfall after
the first debt that absorbs a positive amount). -/
theorem C6_budget_conservation (budget : ℚ) (order : List Nat) (s : SimState)
    (hmp : ∀ d ∈ s.debts, 0 ≤ d.min_pay)
    (hsum : (s.debts.map Debt.min_pay).sum ≤ budget)
    (hcover : ∀ j, j < s.debts.length → j ∈ order) :
    (monthWf budget order s.debts).2.1.sum = budget - (monthWf budget order s.debts).2.2.1 ∧
      (monthWf budget order s.debts).2.1.sum ≤ budget ∧
      ((∃ d ∈ (stepMonth budget order s).debts, eps < d.balance) →
        (monthWf budget order s.debts).2.2.1 = 0 ∨
          ∃ t e, (monthWf budget order s.debts).2.2.2 = some (t, e) ∧
            ((monthWf budget order s.debts).1.getD t default).balance = 0 ∧
            e < budget - (monthMinList s.debts).sum) := by
  have hrbn : 0 ≤ budget - (monthMinList s.debts).sum :=
    sub_nonneg.mpr ((monthMinList_sum_le s.debts hmp).trans hsum)
  have hunpaid : (∃ d ∈ (stepMonth budget order s).debts, eps < d.balance) ↔
      (∃ d ∈ (monthWf budget order s.debts).1, eps < d.balance) := by
    have hd : (stepMonth budget order s).debts =
        (markPayoffs (s.month + 1) (monthWf budget order s.debts).1 s.paid_off_month).1 := rfl
    rw [hd]
    exact markPayoffs_exists_unpaid (s.month + 1) (monthWf budget order s.debts).1
      s.paid_off_month
  cases hW : (monthWf budget order s.debts).2.2.2 with
  | none =>
      rw [monthWf_eq] at hW
      have heq := waterfall_no_target hW
      have hcase := waterfall_none_cases hW
      rw [monthWf_eq, heq] at hunpaid ⊢
      refine ⟨?_, ?_, ?_⟩
      · show (monthMinList s.debts).sum = budget - (budget - (monthMinList s.debts).sum)
        ring
      · show (monthMinList s.debts).sum ≤ budget
        exact (monthMinList_sum_le s.debts hmp).trans hsum
      · intro hup
        rcases hcase with h | h
        · left
          show budget - (monthMinList s.debts).sum = 0
          exact le_antisymm (not_lt.mp h) hrbn
        · exfalso
          obtain ⟨d, hd, hbd⟩ := hunpaid.mp hup
          have hd' : d ∈ monthMid s.debts := hd
          obtain ⟨j, hj, hje⟩ := List.mem_iff_getElem.mp hd'
          have hjo : j ∈ order := by
            apply hcover
            rw [← monthMid_length s.debts]
            exact hj
          have hnone := List.find?_eq_none.mp h j hjo
          rw [decide_eq_true_eq] at hnone
          apply hnone
          rw [List.getD_eq_getElem _ _ hj, hje]
          exact hbd
  | some te =>
      obtain ⟨t, e⟩ := te
      rw [monthWf_eq] at hW
      obtain ⟨hrb, hfind, hext, heq⟩ := waterfall_target_spec hW
      have hpt := List.find?_some hfind
      simp only [decide_eq_true_eq] at hpt
      have ht : t < (monthMid s.debts).length := by
        by_contra hnt
        rw [getD_of_le default (le_of_not_lt hnt)] at hpt
        have hdb : (default : Debt).balance = 0 := rfl
        rw [hdb] at hpt
        exact absurd hpt (by norm_num [eps])
      have htm : t < (monthMinList s.debts).length := by
        rw [monthMinList_length]
        rw [monthMid_length] at ht
        exact ht
      have hsum_set : ((monthMinList s.debts).set t ((monthMinList s.debts).getD t 0 + e)).sum =
          (monthMinList s.debts).sum + e := by
        rw [List.sum_set']
        rw [dif_pos htm]
        rw [List.getD_eq_getElem _ _ htm]
        ring
      have hele : e ≤ budget - (monthMinList s.debts).sum := hext ▸ min_le_left _ _
      rw [monthWf_eq, heq]
      refine ⟨?_, ?_, ?_⟩
      · show ((monthMinList s.debts).set t ((monthMinList s.debts).getD t 0 + e)).sum =
          budget - (budget - (monthMinList s.debts).sum - e)
        rw [hsum_set]
        ring
      · show ((monthMinList s.debts).set t ((monthMinList s.debts).getD t 0 + e)).sum ≤ budget
        rw [hsum_set]
        linarith
      · intro _
        by_cases hce : e = budget - (monthMinList s.debts).sum
        · left
          show budget - (monthMinList s.debts).sum - e = 0
          rw [hce]
          ring
        · right
          refine ⟨t, e, rfl, ?_, lt_of_le_of_ne hele hce⟩
          have hbal : e = ((monthMid s.debts).getD t default).balance := by
            rcases min_cases (budget - (monthMinList s.debts).sum)
                ((monthMid s.debts).getD t default).balance with ⟨h1, h2⟩ | ⟨h1, h2⟩
            · exact absurd (hext.trans h1) hce
            · exact hext.trans h1
          show ((((monthMid s.debts).set t
              { (monthMid s.debts).getD t default with
                balance := ((monthMid s.debts).getD t default).balance - e }).getD t
              default)).balance = 0
          rw [getD_set_self default _ t _ ht]
          show ((monthMid s.debts).getD t default).balance - e = 0
          rw [hbal]
          exact sub_self _

/-- C6 counterexample: debts A (balance 10) and B (balance 1000), no
minimums, budget 100, Snowball.  In month 1 the waterfall pays A its
whole balance of 10 and breaks, so the month's payments sum to 10, a
leftover of 90 stays unspent, and B ends the month unpaid with balance
1000 > eps — refuting the claim that the waterfall fully exhausts the
budget whenever at least one debt remains unpaid. -/
theorem C6_counterexample :
    (monthWf 100 (order_debts [⟨"A", 10, 0, 0⟩, ⟨"B", 1000, 0, 0⟩] Strategy.snowball)
        [⟨"A", 10, 0, 0⟩, ⟨"B", 1000, 0, 0⟩]).2.1.sum = 10 ∧
      (monthWf 100 (order_debts [⟨"A", 10, 0, 0⟩, ⟨"B", 1000, 0, 0⟩] Strategy.snowball)
        [⟨"A", 10, 0, 0⟩, ⟨"B", 1000, 0, 0⟩]).2.2.1 = 90 ∧
      (stateAt [⟨"A", 10, 0, 0⟩, ⟨"B", 1000, 0, 0⟩] 100
          (order_debts [⟨"A", 10, 0, 0⟩, ⟨"B", 1000, 0, 0⟩] Strategy.snowball) 1).debts =
        [⟨"A", 0, 0, 0⟩, ⟨"B", 1000, 0, 0⟩] ∧
      eps < (1000 : ℚ) ∧ (10 : ℚ) ≠ 100 := by
  with_unfolding_all decide

/-- C6 witness: with minimums 2 and 3 under budget 20, the month's
payments never exceed the budget. -/
theorem C6_budget_conservation_witness :
    (monthWf 20 (order_debts [⟨"A", 10, 0, 2⟩, ⟨"B", 50, 0, 3⟩] Strategy.snowball)
        [⟨"A", 10, 0, 2⟩, ⟨"B", 50, 0, 3⟩]).2.1.sum ≤ 20 :=
  (C6_budget_conservation 20
    (order_debts [⟨"A", 10, 0, 2⟩, ⟨"B", 50, 0, 3⟩] Strategy.snowball)
    (initState [⟨"A", 10, 0, 2⟩, ⟨"B", 50, 0, 3⟩])
    (by
      intro d hd
      simp [initState] at hd
      rcases hd with h | h <;> rw [h] <;> norm_num)
    (by with_unfolding_all decide)
    (by
      intro j hj
      have hj2 : j < 2 := hj
      interval_cases j <;> with_unfolding_all decide)).2.1

/-! ### Termination, the 1200-month horizon, snapshot numbering (C8) -/

theorem stepMonth_month (budget : ℚ) (order : List Nat) (s : SimState) :
    (stepMonth budget order s).month = s.month + 1 := rfl

theorem stateAt_month_le (debts0 : List Debt) (budget : ℚ) (order : List Nat) :
    ∀ m, (stateAt debts0 budget order m).month ≤ m ∧
      (stateAt debts0 budget order m).month ≤ 1200 := by
  intro m
  induction m with
  | zero => exact ⟨Nat.le_refl 0, by norm_num [stateAt, initState]⟩
  | succ m ih =>
      rw [stateAt_succ]
      unfold stepCond
      split
      case isTrue hc =>
        rw [stepMonth_month]
        exact ⟨Nat.succ_le_succ ih.1, Nat.succ_le_of_lt hc.2⟩
      case isFalse =>
        exact ⟨ih.1.trans (Nat.le_succ m), ih.2⟩

theorem stateAt_rows_months (debts0 : List Debt) (budget : ℚ) (order : List Nat) :
    ∀ m, (stateAt debts0 budget order m).rows.map Snapshot.month =
      List.range' 1 (stateAt debts0 budget order m).month := by
  intro m
  induction m with
  | zero => rfl
  | succ m ih =>
      rw [stateAt_succ]
      unfold stepCond
      split
      case isTrue hc =>
        obtain ⟨row, hrows, _, hmon⟩ := stepMonth_rows budget order (stateAt debts0 budget order m)
        rw [hrows, stepMonth_month, List.map_append, ih, List.range'_1_concat]
        simp [hmon, Nat.add_comm]
      case isFalse => exact ih

/-- If the loop stopped strictly before iteration m while under the
horizon, it stopped because every balance was at or below eps. -/
theorem stateAt_early_stop (debts0 : List Debt) (budget : ℚ) (order : List Nat) :
    ∀ m, (stateAt debts0 budget order m).month < m →
      (stateAt debts0 budget order m).month < 1200 →
      ∀ d ∈ (stateAt debts0 budget order m).debts, d.balance ≤ eps := by
  intro m
  induction m with
  | zero => intro h; simp at h
  | succ m ih =>
      intro hlt h1200
      rw [stateAt_succ] at hlt h1200 ⊢
      unfold stepCond at hlt h1200 ⊢
      by_cases hc : (∃ d ∈ (stateAt debts0 budget order m).debts, eps < d.balance) ∧
          (stateAt debts0 budget order m).month < 1200
      · rw [if_pos hc] at hlt h1200 ⊢
        rw [stepMonth_month] at hlt
        have hmm : (stateAt debts0 budget order m).month < m := Nat.lt_of_succ_lt_succ hlt
        have hall := ih hmm hc.2
        obtain ⟨d, hd, hbd⟩ := hc.1
        exact absurd hbd (not_lt.mpr (hall d hd))
      · rw [if_neg hc] at hlt h1200 ⊢
        rcases Nat.lt_or_ge (stateAt debts0 budget order m).month m with h | h
        · exact ih h h1200
        · push_neg at hc
          intro d hd
          by_contra hgt
          exact absurd h1200 (not_lt.mpr (hc ⟨d, hd, lt_of_not_le hgt⟩))

/-- A successful simulate returns exactly the rows and summary built
from the final loop state. -/
theorem simulate_ok_shape {debts : List Debt} {b : ℚ} {strat : Strategy}
    {rows : List Snapshot} {res : SimResult}
    (h : simulate debts b strat = .ok (rows, res)) :
    rows = (finalState debts b strat).rows ∧
      res = ⟨(finalState debts b strat).month,
        round2 (finalState debts b strat).total_interest,
        buildPaidDict debts (finalState debts b strat).paid_off_month⟩ := by
  unfold simulate at h
  simp only [] at h
  by_cases h0 : debts.length = 0
  · rw [if_pos h0] at h
    exact absurd h (by simp)
  · rw [if_neg h0] at h
    by_cases h1 : ∃ d ∈ debts, d.balance < 0 ∨ d.min_pay < 0 ∨ d.apr_pct < 0
    · rw [if_pos h1] at h
      exact absurd h (by simp)
    · rw [if_neg h1] at h
      by_cases h2 : b ≤ 0
      · rw [if_pos h2] at h
        exact absurd h (by simp)
      · rw [if_neg h2] at h
        by_cases h3 : b < (debts.map Debt.min_pay).sum
        · rw [if_pos h3] at h
          exact absurd h (by simp)
        · rw [if_neg h3] at h
          simp only [Except.ok.injEq, Prod.mk.injEq] at h
          exact ⟨h.1.symm, h.2.symm⟩

/-- C8: for every accepted input, the loop terminates: the reported
months count is at most the 1200-month horizon, the snapshot sequence
has exactly one entry per simulated month, numbered 1, 2, ..., months
(there is no month-0 snapshot), and if the run stopped before the
horizon it is because every balance was at or below eps. -/
theorem C8_termination (debts : List Debt) (b : ℚ) (strat : Strategy)
    (rows : List Snapshot) (res : SimResult)
    (h : simulate debts b strat = .ok (rows, res)) :
    res.months ≤ 1200 ∧ rows.length = res.months ∧
      rows.map Snapshot.month = List.range' 1 res.months ∧
      (res.months < 1200 → ∀ d ∈ (finalState debts b strat).debts, d.balance ≤ eps) := by
  obtain ⟨hrows, hres⟩ := simulate_ok_shape h
  have hm : res.months = (finalState debts b strat).month := by rw [hres]
  have hmap : rows.map Snapshot.month = List.range' 1 res.months := by
    rw [hrows, hm]
    exact stateAt_rows_months debts b (order_debts debts strat) 1200
  refine ⟨?_, ?_, hmap, ?_⟩
  · rw [hm]
    exact (stateAt_month_le debts b (order_debts debts strat) 1200).2
  · have := congrArg List.length hmap
    rw [List.length_map, List.length_range'] at this
    exact this
  · intro hlt
    rw [hm] at hlt
    exact stateAt_early_stop debts b (order_debts debts strat) 1200 hlt hlt

/-! ### Evaluating short concrete runs -/

/-- Once the guarded loop body fixes the state at iteration k, the
state at the horizon equals it, and simulate returns the rows and
summary built from that state. -/
theorem simulate_eq_of_fix {debts : List Debt} {b : ℚ} {strat : Strategy} (k : Nat)
    (hne : ¬ debts.length = 0)
    (hval1 : ¬ ∃ d ∈ debts, d.balance < 0 ∨ d.min_pay < 0 ∨ d.apr_pct < 0)
    (hval2 : ¬ b ≤ 0) (hval3 : ¬ b < (debts.map Debt.min_pay).sum)
    (hk : k ≤ 1200)
    (hfix : stepCond b (order_debts debts strat)
        (stateAt debts b (order_debts debts strat) k) =
      stateAt debts b (order_debts debts strat) k) :
    simulate debts b strat = .ok ((stateAt debts b (order_debts debts strat) k).rows,
      ⟨(stateAt debts b (order_debts debts strat) k).month,
        round2 (stateAt debts b (order_debts debts strat) k).total_interest,
        buildPaidDict debts (stateAt debts b (order_debts debts strat) k).paid_off_month⟩) := by
  unfold simulate finalState
  simp only []
  rw [if_neg hne, if_neg hval1, if_neg hval2, if_neg hval3, stateAt_fix hfix 1200 hk]

/-- The one-month run of a single debt of balance 10 under budget 20:
paid off in month 1, one snapshot. -/
theorem runA_simulate : simulate [⟨"A", 10, 0, 0⟩] 20 Strategy.snowball =
    .ok ([⟨1, 10, 0, [(0, 10)]⟩], ⟨1, 0, [("A", some 1)]⟩) := by
  rw [simulate_eq_of_fix 1 (by norm_num) (by with_unfolding_all decide) (by norm_num)
    (by with_unfolding_all decide) (by norm_num) (by with_unfolding_all decide)]
  with_unfolding_all decide

/-- C8 witness: the run above reports one month, within the horizon. -/
theorem C8_termination_witness :
    (⟨1, 0, [("A", some 1)]⟩ : SimResult).months ≤ 1200 ∧
      ([⟨1, (10 : ℚ), 0, [((0 : ℚ), (10 : ℚ))]⟩] : List Snapshot).length =
        (⟨1, 0, [("A", some 1)]⟩ : SimResult).months :=
  ⟨(C8_termination [⟨"A", 10, 0, 0⟩] 20 Strategy.snowball _ _ runA_simulate).1,
    (C8_termination [⟨"A", 10, 0, 0⟩] 20 Strategy.snowball _ _ runA_simulate).2.1⟩

/-! ### A debt that starts at balance 0 (C7) -/

/-- C7 counterexample: debt Z starts with balance 0 next to debt B with
balance 10, budget 10.  The run takes one month and the returned
mapping records Z's payoff month as 1 — the first simulated month — not
0 as the claim states. -/
theorem C7_counterexample :
    resultOf [⟨"Z", 0, 0, 0⟩, ⟨"B", 10, 0, 0⟩] 10 Strategy.snowball =
      some ⟨1, 0, [("Z", some 1), ("B", some 1)]⟩ ∧
      lookupDict "Z" [("Z", some 1), ("B", some 1)] = some (some 1) ∧
      (some 1 : Option Nat) ≠ some 0 := by
  refine ⟨?_, by with_unfolding_all decide, by simp⟩
  unfold resultOf
  rw [simulate_eq_of_fix 1 (by norm_num) (by with_unfolding_all decide) (by norm_num)
    (by with_unfolding_all decide) (by norm_num) (by with_unfolding_all decide)]
  with_unfolding_all decide

theorem accrueAll_snd_eq (ds : List Debt) :
    (accrueAll ds).2 = ds.map (fun d => (accrueOne d).2) := by
  simp [accrueAll, List.map_map]

theorem accrueOne_snd_zero {d : Debt} (h : d.balance = 0) : (accrueOne d).2 = 0 := by
  unfold accrueOne
  rw [if_pos (le_of_eq h)]

theorem payMinOne_snd_zero {d : Debt} (h : d.balance = 0) : (payMinOne d).2 = 0 := by
  unfold payMinOne
  rw [if_pos (le_of_eq h)]

theorem monthWf_target_ne {budget : ℚ} {order : List Nat} {ds : List Debt} {i : Nat}
    (hi : i < ds.length) (hz : (ds.getD i default).balance = 0) :
    ∀ e, (monthWf budget order ds).2.2.2 ≠ some (i, e) := by
  intro e hW
  rw [monthWf_eq] at hW
  obtain ⟨_, hfind, _, _⟩ := waterfall_target_spec hW
  have hpt := List.find?_some hfind
  simp only [decide_eq_true_eq] at hpt
  rw [monthMid_getD_zero hi hz, hz] at hpt
  exact absurd hpt (by norm_num [eps])

theorem monthInterest_zero {ds : List Debt} {i : Nat}
    (hi : i < ds.length) (hz : (ds.getD i default).balance = 0) :
    (accrueAll ds).2.getD i 0 = 0 := by
  rw [accrueAll_snd_eq,
    getD_map_comp (fun d => (accrueOne d).2) default 0 (accrueOne_snd_zero rfl) ds i hi]
  exact accrueOne_snd_zero hz

theorem monthMinList_getD_zero {ds : List Debt} {i : Nat}
    (hi : i < ds.length) (hz : (ds.getD i default).balance = 0) :
    (monthMinList ds).getD i 0 = 0 := by
  have hacc : (accrueAll ds).1.getD i default = ds.getD i default := by
    rw [accrueAll_fst_eq,
      getD_map_comp (fun d => (accrueOne d).1) default default (accrueOne_zero rfl) ds i hi,
      accrueOne_zero hz]
  have hlen1 : i < (accrueAll ds).1.length := by rw [accrueAll_fst_length]; exact hi
  unfold monthMinList
  rw [payMins_snd_eq,
    getD_map_comp (fun d => (payMinOne d).2) default 0 (payMinOne_snd_zero rfl) _ i hlen1,
    hacc]
  exact payMinOne_snd_zero hz

theorem monthWf_payment_zero {budget : ℚ} {order : List Nat} {ds : List Debt} {i : Nat}
    (hi : i < ds.length) (hz : (ds.getD i default).balance = 0) :
    (monthWf budget order ds).2.1.getD i 0 = 0 := by
  cases hW : (monthWf budget order ds).2.2.2 with
  | none =>
      rw [monthWf_eq] at hW ⊢
      rw [waterfall_no_target hW]
      exact monthMinList_getD_zero hi hz
  | some te =>
      obtain ⟨t, e⟩ := te
      have hti : t ≠ i := by
        intro h
        exact monthWf_target_ne hi hz e (h ▸ hW)
      rw [monthWf_eq] at hW ⊢
      obtain ⟨_, _, _, heq⟩ := waterfall_target_spec hW
      rw [heq]
      simp only
      rw [getD_set_ne 0 (monthMinList ds) t i _ hti]
      exact monthMinList_getD_zero hi hz

/-- C7 as amended: a debt entering the simulation with balance 0 keeps
balance exactly 0 in every state, accrues no interest, receives no
payment, is never the waterfall's target — and, whenever at least one
simulated month runs (some other debt starts above eps), its recorded
payoff month is 1, the first simulated month, not 0; when no month runs
it stays unset. -/
theorem C7_zero_start (debts0 : List Debt) (b : ℚ) (o : List Nat) (i : Nat)
    (hi : i < debts0.length) (hz : (debts0.getD i default).balance = 0) :
    (∀ m, ((stateAt debts0 b o m).debts.getD i default).balance = 0) ∧
      (∀ m, (accrueAll (stateAt debts0 b o m).debts).2.getD i 0 = 0 ∧
        (monthWf b o (stateAt debts0 b o m).debts).2.1.getD i 0 = 0 ∧
        ∀ e, (monthWf b o (stateAt debts0 b o m).debts).2.2.2 ≠ some (i, e)) ∧
      ((∃ d ∈ debts0, eps < d.balance) →
        ∀ m, 1 ≤ m → (stateAt debts0 b o m).paid_off_month.getD i none = some 1) := by
  have hbal : ∀ m, ((stateAt debts0 b o m).debts.getD i default).balance = 0 := by
    intro m
    induction m with
    | zero => exact hz
    | succ m ih =>
        rw [stateAt_succ]
        unfold stepCond
        split
        case isFalse => exact ih
        case isTrue hc =>
          have hi' : i < (stateAt debts0 b o m).debts.length := by
            rw [stateAt_debts_length]; exact hi
          obtain ⟨hd, _⟩ := stepMonth_getD b o (stateAt debts0 b o m) i
            (by rw [stateAt_debts_length, stateAt_paid_length]) hi'
          rw [hd]
          have hwfz := monthWf_zero_keep b o hi' ih
          unfold markOne
          split
          · rfl
          · exact hwfz
  have hi' : ∀ m, i < (stateAt debts0 b o m).debts.length := by
    intro m
    rw [stateAt_debts_length]
    exact hi
  refine ⟨hbal, ?_, ?_⟩
  · intro m
    exact ⟨monthInterest_zero (hi' m) (hbal m), monthWf_payment_zero (hi' m) (hbal m),
      monthWf_target_ne (hi' m) (hbal m)⟩
  · intro hex
    have h1 : (stateAt debts0 b o 1).paid_off_month.getD i none = some 1 := by
      have hc : (∃ d ∈ (stateAt debts0 b o 0).debts, eps < d.balance) ∧
          (stateAt debts0 b o 0).month < 1200 := ⟨hex, by show (0 : Nat) < 1200; norm_num⟩
      rw [stateAt_succ]
      unfold stepCond
      rw [if_pos hc]
      obtain ⟨_, hp⟩ := stepMonth_getD b o (stateAt debts0 b o 0) i
        (by rw [stateAt_debts_length, stateAt_paid_length]) (hi' 0)
      rw [hp]
      have hwfz := monthWf_zero_keep b o (hi' 0) (hbal 0)
      have hpz : (stateAt debts0 b o 0).paid_off_month.getD i none = none :=
        getD_replicate_none debts0.length i
      unfold markOne
      rw [if_pos ⟨by rw [hwfz]; exact le_of_lt eps_pos, hpz⟩]
      rfl
    have hkeep : ∀ m, 1 ≤ m → (stateAt debts0 b o m).paid_off_month.getD i none = some 1 := by
      intro m
      induction m with
      | zero => intro h; exact absurd h (by norm_num)
      | succ m ihm =>
          intro _
          rcases Nat.eq_zero_or_pos m with he | hpos
          · rw [he]
            exact h1
          · have hp := ihm hpos
            rw [stateAt_succ]
            unfold stepCond
            split
            · exact stepMonth_paid_keep (by rw [stateAt_debts_length, stateAt_paid_length]) hp
            · exact hp
    exact hkeep

/-- C7 witness: with debt Z starting at 0 next to debt B at 10, after
two months Z's balance is still exactly 0 and its recorded payoff month
is 1. -/
theorem C7_zero_start_witness :
    ((stateAt [⟨"Z", 0, 0, 0⟩, ⟨"B", 10, 0, 0⟩] 10
        (order_debts [⟨"Z", 0, 0, 0⟩, ⟨"B", 10, 0, 0⟩] Strategy.snowball) 2).debts.getD 0
          default).balance = 0 ∧
      (stateAt [⟨"Z", 0, 0, 0⟩, ⟨"B", 10, 0, 0⟩] 10
        (order_debts [⟨"Z", 0, 0, 0⟩, ⟨"B", 10, 0, 0⟩] Strategy.snowball) 2).paid_off_month.getD
          0 none = some 1 :=
  ⟨(C7_zero_start [⟨"Z", 0, 0, 0⟩, ⟨"B", 10, 0, 0⟩] 10
      (order_debts [⟨"Z", 0, 0, 0⟩, ⟨"B", 10, 0, 0⟩] Strategy.snowball) 0
      (by norm_num) rfl).1 2,
    (C7_zero_start [⟨"Z", 0, 0, 0⟩, ⟨"B", 10, 0, 0⟩] 10
      (order_debts [⟨"Z", 0, 0, 0⟩, ⟨"B", 10, 0, 0⟩] Strategy.snowball) 0
      (by norm_num) rfl).2.2
      ⟨⟨"B", 10, 0, 0⟩, by simp, by norm_num [eps]⟩ 2 (by norm_num)⟩

/-! ### The name-keyed paid-off mapping and duplicate names (C9) -/

/-- The two-month run of two debts that share the name A: the first is
paid in month 1, the second in month 2. -/
theorem runDup_simulate : simulate [⟨"A", 10, 0, 0⟩, ⟨"A", 20, 0, 0⟩] 100 Strategy.snowball =
    .ok ([⟨1, 90, 0, [(0, 10), (20, 0)]⟩, ⟨2, 80, 0, [(0, 0), (0, 20)]⟩],
      ⟨2, 0, [("A", some 2)]⟩) := by
  rw [simulate_eq_of_fix 2 (by norm_num) (by with_unfolding_all decide) (by norm_num)
    (by with_unfolding_all decide) (by norm_num) (by with_unfolding_all decide)]
  with_unfolding_all decide

/-- C9 counterexample: two debts both named A, paid in months 1 and 2.
The returned mapping has a single entry, A mapped to month 2: the first
debt's payoff month 1 is recorded per index internally but absent from
the returned mapping — there is no positional-index fallback. -/
theorem C9_counterexample :
    resultOf [⟨"A", 10, 0, 0⟩, ⟨"A", 20, 0, 0⟩] 100 Strategy.snowball =
      some ⟨2, 0, [("A", some 2)]⟩ ∧
      (stateAt [⟨"A", 10, 0, 0⟩, ⟨"A", 20, 0, 0⟩] 100
        (order_debts [⟨"A", 10, 0, 0⟩, ⟨"A", 20, 0, 0⟩] Strategy.snowball) 2).paid_off_month =
        [some 1, some 2] ∧
      ([("A", some 2)] : List (String × Option Nat)).length = 1 := by
  refine ⟨?_, by with_unfolding_all decide, rfl⟩
  unfold resultOf
  rw [runDup_simulate]

theorem lookupDict_dictInsert (nm k : String) (v : Option Nat) :
    ∀ l : List (String × Option Nat),
      lookupDict nm (dictInsert k v l) = if k = nm then some v else lookupDict nm l := by
  intro l
  induction l with
  | nil =>
      unfold dictInsert lookupDict
      by_cases h : k = nm
      · rw [if_pos h]
        simp [List.find?, h]
      · rw [if_neg h]
        simp [List.find?, h]
  | cons p l ih =>
      obtain ⟨k', v'⟩ := p
      unfold dictInsert
      by_cases hkk : k' = k
      · rw [if_pos hkk]
        subst hkk
        unfold lookupDict
        by_cases h : k' = nm
        · rw [if_pos h]
          simp [List.find?_cons_of_pos, h]
        · rw [if_neg h]
          simp [List.find?_cons_of_neg, h]
      · rw [if_neg hkk]
        by_cases h : k' = nm
        · have hknm : ¬ k = nm := fun he => hkk (h.trans he.symm)
          rw [if_neg hknm]
          unfold lookupDict
          simp [List.find?_cons_of_pos, h]
        · unfold lookupDict
          rw [List.find?_cons_of_neg _ (by simpa using h),
            List.find?_cons_of_neg _ (by simpa using h)]
          exact ih

theorem foldl_dict_lookup (nm : String) :
    ∀ (pairs : List (Debt × Option Nat)) (acc : List (String × Option Nat)),
      lookupDict nm (pairs.foldl (fun a dp => dictInsert dp.1.name dp.2 a) acc) =
        ((((pairs.filter (fun dp => decide (dp.1.name = nm))).getLast?).map
          Prod.snd).or (lookupDict nm acc)) := by
  intro pairs
  induction pairs using List.reverseRecOn with
  | nil => intro acc; simp
  | append_singleton ps dp ih =>
      intro acc
      rw [List.foldl_append]
      simp only [List.foldl_cons, List.foldl_nil]
      rw [lookupDict_dictInsert, List.filter_append]
      by_cases h : dp.1.name = nm
      · rw [if_pos h]
        have hf : List.filter (fun dp => decide (dp.1.name = nm)) [dp] = [dp] := by
          simp [List.filter, h]
        rw [hf, List.getLast?_concat]
        rfl
      · rw [if_neg h]
        have hf : List.filter (fun dp => decide (dp.1.name = nm)) [dp] = [] := by
          simp [List.filter, h]
        rw [hf, List.append_nil]
        exact ih acc

/-- C9 as amended: the returned paid-off mapping is keyed by debt name
only.  Looking up a name yields the payoff value of the LAST input debt
bearing that name; when two debts share a name the earlier debt's
payoff month is absent from the mapping (it is tracked per index
internally but overwritten in the name-keyed dict) — there is no
positional-index fallback. -/
theorem C9_paid_dict_last (debts : List Debt) (b : ℚ) (strat : Strategy)
    (rows : List Snapshot) (res : SimResult)
    (h : simulate debts b strat = .ok (rows, res)) (nm : String) :
    lookupDict nm res.paid_off_months =
      (((debts.zip (finalState debts b strat).paid_off_month).filter
        (fun dp => decide (dp.1.name = nm))).getLast?).map Prod.snd := by
  obtain ⟨_, hres⟩ := simulate_ok_shape h
  rw [hres]
  show lookupDict nm (buildPaidDict debts (finalState debts b strat).paid_off_month) = _
  unfold buildPaidDict
  rw [foldl_dict_lookup]
  have : lookupDict nm [] = none := rfl
  rw [this, Option.or_none]

/-- C9 witness: on the duplicate-name run, looking up A in the returned
mapping yields the last A-debt's payoff month. -/
theorem C9_paid_dict_last_witness :
    lookupDict "A" (⟨2, 0, [("A", some 2)]⟩ : SimResult).paid_off_months =
      (((([⟨"A", 10, 0, 0⟩, ⟨"A", 20, 0, 0⟩] : List Debt).zip
        (finalState [⟨"A", 10, 0, 0⟩, ⟨"A", 20, 0, 0⟩] 100 Strategy.snowball).paid_off_month).filter
          (fun dp => decide (dp.1.name = "A"))).getLast?).map Prod.snd :=
  C9_paid_dict_last [⟨"A", 10, 0, 0⟩, ⟨"A", 20, 0, 0⟩] 100 Strategy.snowball _ _
    runDup_simulate "A"

/-! ### The horizon runs for C1: a single 0 percent debt paying 1 per month -/

theorem stepMonth_debts_eq (budget : ℚ) (order : List Nat) (s : SimState) :
    (stepMonth budget order s).debts =
      (markPayoffs (s.month + 1) (monthWf budget order s.debts).1 s.paid_off_month).1 := rfl

theorem stepMonth_paid_eq (budget : ℚ) (order : List Nat) (s : SimState) :
    (stepMonth budget order s).paid_off_month =
      (markPayoffs (s.month + 1) (monthWf budget order s.debts).1 s.paid_off_month).2 := rfl

theorem stepMonth_ti_eq (budget : ℚ) (order : List Nat) (s : SimState) :
    (stepMonth budget order s).total_interest =
      s.total_interest + (accrueAll s.debts).2.sum := rfl

theorem finalState_eq (debts : List Debt) (b : ℚ) (strat : Strategy) :
    finalState debts b strat = stateAt debts b (order_debts debts strat) 1200 := rfl

theorem round2_zero : round2 0 = 0 := by with_unfolding_all decide

/-- The linear run: one debt at 0 percent APR with minimum payment 1
under budget 1 loses exactly 1 of balance per month, never converging
while the balance stays above 1: after m months the balance is B - m,
no interest has accrued, and the payoff month is unset. -/
theorem run_linear (nm : String) (B : ℚ) :
    ∀ m : Nat, m ≤ 1200 → (m : ℚ) + 1 ≤ B →
      (stateAt [⟨nm, B, 0, 1⟩] 1 [0] m).debts = [⟨nm, B - m, 0, 1⟩] ∧
        (stateAt [⟨nm, B, 0, 1⟩] 1 [0] m).month = m ∧
        (stateAt [⟨nm, B, 0, 1⟩] 1 [0] m).total_interest = 0 ∧
        (stateAt [⟨nm, B, 0, 1⟩] 1 [0] m).paid_off_month = [none] := by
  intro m
  induction m with
  | zero =>
      intro _ _
      refine ⟨?_, rfl, rfl, rfl⟩
      simp only [Nat.cast_zero, sub_zero]
      rfl
  | succ m ih =>
      intro hm hB
      have hB' : (m : ℚ) + 1 ≤ B := by push_cast at hB ⊢; linarith
      have hB2 : (m : ℚ) + 2 ≤ B := by push_cast at hB ⊢; linarith
      obtain ⟨hdebts, hmonth, hti, hpaid⟩ := ih (Nat.le_of_succ_le hm) hB'
      have hpos : (0 : ℚ) < B - m := by linarith
      have h1le : (1 : ℚ) ≤ B - m := by linarith
      have hbal : eps < B - (m : ℚ) := by norm_num [eps]; linarith
      have hacc : accrueOne ⟨nm, B - (m : ℚ), 0, 1⟩ = (⟨nm, B - (m : ℚ), 0, 1⟩, 0) := by
        unfold accrueOne
        rw [if_neg (not_le.mpr hpos)]
        simp [monthly_rate]
      have hpay : payMinOne ⟨nm, B - (m : ℚ), 0, 1⟩ = (⟨nm, B - (m : ℚ) - 1, 0, 1⟩, 1) := by
        unfold payMinOne
        rw [if_neg (not_le.mpr hpos)]
        simp [min_eq_left h1le]
      have hwf : monthWf 1 [0] [⟨nm, B - (m : ℚ), 0, 1⟩] =
          ([⟨nm, B - (m : ℚ) - 1, 0, 1⟩], [1], 0, none) := by
        have h1 : monthMid [⟨nm, B - (m : ℚ), 0, 1⟩] = [⟨nm, B - (m : ℚ) - 1, 0, 1⟩] := by
          unfold monthMid
          rw [payMins_fst_eq, accrueAll_fst_eq]
          simp [hacc, hpay]
        have h2 : monthMinList [⟨nm, B - (m : ℚ), 0, 1⟩] = [1] := by
          unfold monthMinList
          rw [payMins_snd_eq, accrueAll_fst_eq]
          simp [hacc, hpay]
        rw [monthWf_eq, h1, h2]
        unfold waterfall
        rw [if_neg (by simp)]
        simp
      have hone : markOne (m + 1) ⟨nm, B - (m : ℚ) - 1, 0, 1⟩ none =
          (⟨nm, B - (m : ℚ) - 1, 0, 1⟩, none) := by
        unfold markOne
        rw [if_neg (fun hand => absurd hand.1 (not_le.mpr (by norm_num [eps]; linarith)))]
      have hmark : markPayoffs (m + 1) [⟨nm, B - (m : ℚ) - 1, 0, 1⟩] [(none : Option Nat)] =
          ([⟨nm, B - (m : ℚ) - 1, 0, 1⟩], [none]) := by
        simp [markPayoffs, hone]
      have hstep : stateAt [⟨nm, B, 0, 1⟩] 1 [0] (m + 1) =
          stepMonth 1 [0] (stateAt [⟨nm, B, 0, 1⟩] 1 [0] m) := by
        rw [stateAt_succ]
        unfold stepCond
        rw [if_pos ⟨⟨⟨nm, B - (m : ℚ), 0, 1⟩, by rw [hdebts]; simp, hbal⟩,
          by rw [hmonth]; omega⟩]
      refine ⟨?_, ?_, ?_, ?_⟩
      · rw [hstep, stepMonth_debts_eq, hmonth, hdebts, hpaid, hwf, hmark]
        simp only [List.cons.injEq, Debt.mk.injEq, and_true, true_and]
        push_cast
        ring
      · rw [hstep, stepMonth_month, hmonth]
      · rw [hstep, stepMonth_ti_eq, hti, hdebts, accrueAll_snd_eq]
        simp [hacc]
      · rw [hstep, stepMonth_paid_eq, hmonth, hdebts, hpaid, hwf, hmark]

/-- The non-convergent run: balance 10000 at 0 percent, minimum 1,
budget 1.  After the full 1200-month horizon the balance is 8800. -/
theorem runX_final : (finalState [⟨"A", 10000, 0, 1⟩] 1 Strategy.snowball).debts =
      [⟨"A", 8800, 0, 1⟩] ∧
    (finalState [⟨"A", 10000, 0, 1⟩] 1 Strategy.snowball).month = 1200 ∧
    (finalState [⟨"A", 10000, 0, 1⟩] 1 Strategy.snowball).total_interest = 0 ∧
    (finalState [⟨"A", 10000, 0, 1⟩] 1 Strategy.snowball).paid_off_month = [none] := by
  have horder : order_debts [⟨"A", (10000 : ℚ), 0, 1⟩] Strategy.snowball = [0] := by
    with_unfolding_all decide
  obtain ⟨hdebts, hmonth, hti, hpaid⟩ := run_linear "A" 10000 1200 (by norm_num) (by norm_num)
  rw [finalState_eq, horder]
  refine ⟨?_, hmonth, hti, hpaid⟩
  rw [hdebts]
  norm_num

/-- simulate on the non-convergent run: months reports the horizon 1200
and the only debt's payoff month is unset; the result dict holds
exactly these three entries, with no converged flag. -/
theorem runX_result :
    resultOf [⟨"A", 10000, 0, 1⟩] 1 Strategy.snowball = some ⟨1200, 0, [("A", none)]⟩ := by
  obtain ⟨hdebts, hmonth, hti, hpaid⟩ := runX_final
  have hfix : stepCond 1 (order_debts [⟨"A", 10000, 0, 1⟩] Strategy.snowball)
      (stateAt [⟨"A", 10000, 0, 1⟩] 1 (order_debts [⟨"A", 10000, 0, 1⟩] Strategy.snowball) 1200) =
      stateAt [⟨"A", 10000, 0, 1⟩] 1 (order_debts [⟨"A", 10000, 0, 1⟩] Strategy.snowball) 1200 := by
    apply stepCond_of_not
    intro hand
    rw [← finalState_eq] at hand
    rw [hmonth] at hand
    exact absurd hand.2 (by norm_num)
  unfold resultOf
  rw [simulate_eq_of_fix 1200 (by norm_num) (by with_unfolding_all decide) (by norm_num)
    (by with_unfolding_all decide) (by norm_num) hfix]
  rw [← finalState_eq, hmonth, hti, hpaid, round2_zero]
  rfl

/-- The run that pays off exactly at the horizon: balance 1200 at 0
percent, minimum 1, budget 1 — the last 1 is paid in month 1200 and the
payoff month records as 1200. -/
theorem runY_result :
    resultOf [⟨"A", 1200, 0, 1⟩] 1 Strategy.snowball = some ⟨1200, 0, [("A", some 1200)]⟩ := by
  have horder : order_debts [⟨"A", (1200 : ℚ), 0, 1⟩] Strategy.snowball = [0] := by
    with_unfolding_all decide
  obtain ⟨hdebts, hmonth, hti, hpaid⟩ := run_linear "A" 1200 1199 (by norm_num) (by norm_num)
  have hd1 : (stateAt [⟨"A", 1200, 0, 1⟩] 1 [0] 1199).debts = [⟨"A", 1, 0, 1⟩] := by
    rw [hdebts]
    norm_num
  have hstep : stateAt [⟨"A", 1200, 0, 1⟩] 1 [0] 1200 =
      stepMonth 1 [0] (stateAt [⟨"A", 1200, 0, 1⟩] 1 [0] 1199) := by
    rw [show (1200 : Nat) = 1199 + 1 from rfl, stateAt_succ]
    unfold stepCond
    rw [if_pos ⟨⟨⟨"A", 1, 0, 1⟩, by rw [hd1]; simp, by norm_num [eps]⟩,
      by rw [hmonth]; norm_num⟩]
  have hwf : monthWf 1 [0] [(⟨"A", 1, 0, 1⟩ : Debt)] = ([⟨"A", 0, 0, 1⟩], [1], 0, none) := by
    with_unfolding_all decide
  have hmark : markPayoffs 1200 [(⟨"A", (0 : ℚ), 0, 1⟩ : Debt)] [(none : Option Nat)] =
      ([⟨"A", 0, 0, 1⟩], [some 1200]) := by
    with_unfolding_all decide
  have haccz : (accrueAll [(⟨"A", (1 : ℚ), 0, 1⟩ : Debt)]).2.sum = 0 := by
    with_unfolding_all decide
  have hmonth2 : (stateAt [⟨"A", 1200, 0, 1⟩] 1 [0] 1200).month = 1200 := by
    rw [hstep, stepMonth_month, hmonth]
  have hti2 : (stateAt [⟨"A", 1200, 0, 1⟩] 1 [0] 1200).total_interest = 0 := by
    rw [hstep, stepMonth_ti_eq, hti, hd1, haccz]
    norm_num
  have hpaid2 : (stateAt [⟨"A", 1200, 0, 1⟩] 1 [0] 1200).paid_off_month = [some 1200] := by
    rw [hstep, stepMonth_paid_eq, hmonth, hd1, hpaid, hwf, hmark]
  have hfix : stepCond 1 (order_debts [⟨"A", 1200, 0, 1⟩] Strategy.snowball)
      (stateAt [⟨"A", 1200, 0, 1⟩] 1 (order_debts [⟨"A", 1200, 0, 1⟩] Strategy.snowball) 1200) =
      stateAt [⟨"A", 1200, 0, 1⟩] 1 (order_debts [⟨"A", 1200, 0, 1⟩] Strategy.snowball) 1200 := by
    apply stepCond_of_not
    intro hand
    rw [horder, hmonth2] at hand
    exact absurd hand.2 (by norm_num)
  unfold resultOf
  rw [simulate_eq_of_fix 1200 (by norm_num) (by with_unfolding_all decide) (by norm_num)
    (by with_unfolding_all decide) (by norm_num) hfix]
  rw [horder, hmonth2, hti2, hpaid2, round2_zero]
  rfl

/-- C1 counterexample: the result dict of simulate consists of exactly
months, total_interest and paid_off_months — there is no converged
boolean anywhere in it (lines 124-129 of the source build precisely
these three entries).  A run that exhausts the horizon with 8800 of
balance left and a run that genuinely pays off in month 1200 both
report months = 1200: the only difference in the returned summary is
the paid_off_months entry (unset versus 1200), so the claimed explicit
converged signal does not exist and convergence is not distinguishable
from the months value. -/
theorem C1_counterexample :
    resultOf [⟨"A", 10000, 0, 1⟩] 1 Strategy.snowball = some ⟨1200, 0, [("A", none)]⟩ ∧
      resultOf [⟨"A", 1200, 0, 1⟩] 1 Strategy.snowball = some ⟨1200, 0, [("A", some 1200)]⟩ :=
  ⟨runX_result, runY_result⟩

/-- C1 as amended: the returned summary carries no converged boolean —
its components are exactly months, total_interest and paid_off_months.
When the run ends with some debt's balance still above eps, months
equals the horizon value 1200 and that debt's per-index payoff month is
unset; since months = 1200 also occurs on an exact payoff at the
horizon, the caller can infer non-convergence only from the payoff-
month data, not from an explicit flag and not from months alone. -/
theorem C1_no_converged_flag (debts : List Debt) (b : ℚ) (strat : Strategy)
    (res : SimResult) (h : resultOf debts b strat = some res) (i : Nat)
    (hbal : eps < ((finalState debts b strat).debts.getD i default).balance) :
    res.months = 1200 ∧ (finalState debts b strat).paid_off_month.getD i none = none := by
  have hsim : ∃ rows, simulate debts b strat = .ok (rows, res) := by
    unfold resultOf at h
    cases hs : simulate debts b strat with
    | error e => rw [hs] at h; exact absurd h (by simp)
    | ok p =>
        rw [hs] at h
        simp only [Option.some.injEq] at h
        refine ⟨p.1, ?_⟩
        rw [← h]
  obtain ⟨rows, hsim⟩ := hsim
  obtain ⟨_, hres⟩ := simulate_ok_shape hsim
  have hm : res.months = (finalState debts b strat).month := by rw [hres]
  constructor
  · rw [hm]
    by_contra hne
    have hle := (stateAt_month_le debts b (order_debts debts strat) 1200).2
    rw [← finalState_eq] at hle
    have hlt : (finalState debts b strat).month < 1200 := lt_of_le_of_ne hle hne
    rw [finalState_eq] at hlt
    have hall := stateAt_early_stop debts b (order_debts debts strat) 1200 hlt hlt
    rw [← finalState_eq] at hall
    have hi : i < (finalState debts b strat).debts.length := by
      by_contra hni
      rw [getD_of_le default (le_of_not_lt hni)] at hbal
      have hdb : (default : Debt).balance = 0 := rfl
      rw [hdb] at hbal
      exact absurd hbal (by norm_num [eps])
    have hmem : (finalState debts b strat).debts.getD i default ∈
        (finalState debts b strat).debts := by
      rw [List.getD_eq_getElem _ _ hi]
      exact List.getElem_mem _
    exact absurd hbal (not_lt.mpr (hall _ hmem))
  · cases hp : (finalState debts b strat).paid_off_month.getD i none with
    | none => rfl
    | some k =>
        exfalso
        have hz := stateAt_paid_zero debts b (order_debts debts strat) 1200 i k
          (by rw [← finalState_eq]; exact hp)
        rw [← finalState_eq] at hz
        rw [hz] at hbal
        exact absurd hbal (by norm_num [eps])

/-- C1 witness: applying the theorem to the non-convergent horizon run. -/
theorem C1_no_converged_flag_witness :
    (⟨1200, 0, [("A", none)]⟩ : SimResult).months = 1200 ∧
      (finalState [⟨"A", 10000, 0, 1⟩] 1 Strategy.snowball).paid_off_month.getD 0 none = none :=
  C1_no_converged_flag [⟨"A", 10000, 0, 1⟩] 1 Strategy.snowball _ runX_result 0
    (by rw [runX_final.1]; with_unfolding_all decide)
